import Mathlib

/-!
Verification of the surveillance-panel analytics core.

This file gives a shallow embedding, in Lean 4, of the analytics pipeline of
the surveillance panel (`CameraStream.cpp`, `CameraManager.cpp`,
`AlertLogModel.cpp`) and proves properties of the embedded functions.

Modelling conventions:
* C++ `double` values are modelled as `ℚ` (exact rational arithmetic); the
  source performs only field operations and comparisons on the values we
  reason about, with two exceptions noted below.
* `qint64` millisecond timestamps are modelled as `Int`.
* Wherever the source compares two square roots of nonnegative numbers
  (`std::sqrt(dx*dx + dy*dy) < best` in `updateTracks`, and
  `std::abs(curSide) / lineLength < 50` in `processTripwire`), the embedding
  compares the squares instead, which is equivalent because `Real.sqrt` is
  strictly monotone on nonnegatives; the affected definitions carry comments.
* Outputs of OpenCV primitives (background subtraction, morphology, polygon
  rasterisation, image moments, inference) are treated as inputs of the
  embedded step functions: the embedding covers exactly the decision logic
  the repository implements on top of those primitives.
* `QMap<int, TrackState>` iterates in ascending key order; it is modelled as
  a list kept in ascending id order (new tracks get ids larger than all
  existing ones and are appended at the end).
-/

/-- A 2-D point with rational coordinates (models `QPointF`). -/
structure Point where
  x : ℚ
  y : ℚ
deriving DecidableEq

/-- Per-track state (models `struct TrackState` in `CameraStream.h`). -/
structure TrackState where
  id : Int
  label : String
  centroid : Point
  prevCentroid : Point
  firstSeenMs : Int
  lastSeenMs : Int
  insideRoi : Bool
  loiterAlertSent : Bool
  lastTripwireAlertMs : Int
  enteredRoiMs : Int
deriving DecidableEq

/-- Tracking constant `MAX_TRACK_DISTANCE` from `CameraStream.h`. -/
def MAX_TRACK_DISTANCE : ℚ := 0.1

/-- Tracking constant `TRACK_TIMEOUT_MS` from `CameraStream.h`. -/
def TRACK_TIMEOUT_MS : Int := 2000

/-- Line-crossing constant `LINE_EPSILON` from `CameraStream.h`. -/
def LINE_EPSILON : ℚ := 1e-4

/-- Debounce constant `TRIPWIRE_ALERT_DEBOUNCE_MS` from `CameraStream.h`. -/
def TRIPWIRE_ALERT_DEBOUNCE_MS : Int := 2000

/-- Loitering constant `LOITERING_THRESHOLD_MS` from `CameraStream.h`. -/
def LOITERING_THRESHOLD_MS : Int := 8000

/-- AI cadence constant `AI_PROCESS_INTERVAL` from `CameraStream.h`. -/
def AI_PROCESS_INTERVAL : Int := 5

/-- Events emitted by the capture worker (the Qt signals of `CaptureWorker`
that carry analytics alerts). -/
inductive Ev where
  | motion (score : ℚ)
  | roiMotion (score : ℚ)
  | tripwire (direction : Int)
  | trackTripwire (trackId : Int) (label : String) (direction : String)
  | loitering (trackId : Int) (label : String) (durationMs : Int)
deriving DecidableEq

/-- Mutable state of a `CaptureWorker` relevant to the analytics logic
(fields of `CaptureWorker` in `CameraStream.h`). -/
structure WorkerState where
  motionEnabled : Bool
  motionSensitivity : ℚ
  lastMotionTime : Int
  hasRoi : Bool
  roiNorm : List Point
  lastRoiAlertTime : Int
  hasTripwire : Bool
  tripwireStart : Point
  tripwireEnd : Point
  lastTripwireAlertTime : Int
  prevSide : ℚ
  hasPrevSide : Bool
  aiEnabled : Bool
  aiFrameCounter : Int
  tracks : List TrackState
  nextTrackId : Int
deriving DecidableEq

/-- Numeric summary of one frame's foreground mask, as produced by the OpenCV
primitives in `processMotionDetection` (`countNonZero`, masked counts, image
moments, frame dimensions). These are inputs to the embedded logic. -/
structure MaskData where
  motionPixels : Nat
  totalPixels : Nat
  roiArea : Nat
  roiMotionPixels : Nat
  m00 : ℚ
  m10 : ℚ
  m01 : ℚ
  width : Int
  height : Int
deriving DecidableEq

/-- Sensitivity-to-threshold mapping of `processMotionDetection`
(`threshold = 10.0 - (m_motionSensitivity / 100.0) * 9.5`). -/
def motionThreshold (sensitivity : ℚ) : ℚ := 10 - (sensitivity / 100) * 9.5

/-- Embeds `CaptureWorker::processRoiMotion`. The polygon raster and the
bitwise AND with the motion mask are OpenCV primitives whose pixel counts
arrive in `MaskData`; the pixel-coordinate conversion of the ROI points does
not change how many there are, so the `roiPts.size() < 3` guard is the length
of `m_roiNorm`. -/
def processRoiMotion (s : WorkerState) (d : MaskData) (now : Int) :
    WorkerState × List Ev :=
  if s.roiNorm.length < 3 then (s, [])
  else if d.roiArea = 0 then (s, [])
  else
    let roiScore : ℚ := ((d.roiMotionPixels : ℚ) * 100) / (d.roiArea : ℚ)
    if motionThreshold s.motionSensitivity < roiScore then
      if 3000 < now - s.lastRoiAlertTime then
        ({ s with lastRoiAlertTime := now }, [Ev.roiMotion roiScore])
      else (s, [])
    else (s, [])

/-- Embeds `CaptureWorker::processTripwire`. The perpendicular-distance test
`std::abs(curSide) / lineLength < 50` is embedded in squared form
`curSide * curSide < 2500 * lineLenSq`, which is equivalent whenever the
crossing test `curSide * prevSide < 0` holds (both sides are then nonzero, so
the line has positive length). -/
def processTripwire (s : WorkerState) (d : MaskData) (now : Int) :
    WorkerState × List Ev :=
  if d.m00 < 100 then ({ s with hasPrevSide := false }, [])
  else
    let cx := d.m10 / d.m00
    let cy := d.m01 / d.m00
    let x1 := s.tripwireStart.x * (d.width : ℚ)
    let y1 := s.tripwireStart.y * (d.height : ℚ)
    let x2 := s.tripwireEnd.x * (d.width : ℚ)
    let y2 := s.tripwireEnd.y * (d.height : ℚ)
    let curSide := (cx - x1) * (y2 - y1) - (cy - y1) * (x2 - x1)
    let lineLenSq := (x2 - x1) * (x2 - x1) + (y2 - y1) * (y2 - y1)
    let r :=
      if s.hasPrevSide ∧ curSide * s.prevSide < 0 then
        if curSide * curSide < 2500 * lineLenSq then
          if 2000 < now - s.lastTripwireAlertTime then
            let direction : Int := if 0 < curSide ∧ s.prevSide < 0 then 1 else -1
            ({ s with lastTripwireAlertTime := now }, [Ev.tripwire direction])
          else (s, [])
        else (s, [])
      else (s, [])
    ({ r.1 with prevSide := curSide, hasPrevSide := true }, r.2)

/-- Embeds `CaptureWorker::processMotionDetection`: whole-frame motion score
and debounce, then the ROI branch, then the mask-centroid tripwire branch. -/
def processMotionDetection (s : WorkerState) (d : MaskData) (now : Int) :
    WorkerState × List Ev :=
  let motionScore : ℚ := ((d.motionPixels : ℚ) * 100) / (d.totalPixels : ℚ)
  let r1 :=
    if motionThreshold s.motionSensitivity < motionScore then
      if 2000 < now - s.lastMotionTime then
        ({ s with lastMotionTime := now }, [Ev.motion motionScore])
      else (s, [])
    else (s, [])
  let r2 := if r1.1.hasRoi then processRoiMotion r1.1 d now else (r1.1, [])
  let r3 := if r2.1.hasTripwire then processTripwire r2.1 d now else (r2.1, [])
  (r3.1, r1.2 ++ r2.2 ++ r3.2)

/-- Embeds `CaptureWorker::computeSideOfLine` for the per-track tripwire,
relative to the (normalized) tripwire endpoints. -/
def computeSideOfLine (tw1 tw2 p : Point) : ℚ :=
  (p.x - tw1.x) * (tw2.y - tw1.y) - (p.y - tw1.y) * (tw2.x - tw1.x)

/-- Embeds `CaptureWorker::getCrossingDirection`. -/
def getCrossingDirection (prevSide currSide : ℚ) : String :=
  if prevSide < 0 ∧ 0 < currSide then "left to right"
  else if 0 < prevSide ∧ currSide < 0 then "right to left"
  else "unknown"

/-- One iteration of the ray-casting loop of `CaptureWorker::pointInRoi`
(the pair is the current vertex `i` and the previous vertex `j`). The guard
`(yi > p.y) != (yj > p.y)` forces `yi ≠ yj`, so the division is never by
zero where the comparison matters. -/
def rayCastStep (p : Point) (inside : Bool) (pr : Point × Point) : Bool :=
  if ((decide (p.y < pr.1.y) != decide (p.y < pr.2.y)) &&
      decide (p.x < (pr.2.x - pr.1.x) * (p.y - pr.1.y) / (pr.2.y - pr.1.y) + pr.1.x)) then
    !inside
  else inside

/-- Pairs each vertex with its predecessor, the first vertex pairing with the
last, matching the index pattern `i = 0, j = n-1; j = i++`. -/
def rotateBack (l : List Point) : List Point :=
  match l.getLast? with
  | none => []
  | some v => v :: l.dropLast

/-- Embeds `CaptureWorker::pointInRoi` (ray-casting point-in-polygon test). -/
def pointInRoi (hasRoi : Bool) (roi : List Point) (p : Point) : Bool :=
  if !hasRoi || roi.length < 3 then false
  else (roi.zip (rotateBack roi)).foldl (rayCastStep p) false

/-- Embeds `CaptureWorker::updateRoiStatus`. -/
def updateRoiStatus (hasRoi : Bool) (roi : List Point) (t : TrackState)
    (now : Int) : TrackState :=
  let nowInside := pointInRoi hasRoi roi t.centroid
  let t1 :=
    if nowInside then
      if !t.insideRoi then { t with enteredRoiMs := now } else t
    else
      if t.insideRoi then { t with enteredRoiMs := 0, loiterAlertSent := false }
      else t
  { t1 with insideRoi := nowInside }

/-- Embeds `CaptureWorker::checkLoitering`. -/
def checkLoitering (t : TrackState) (now : Int) : TrackState × List Ev :=
  if !t.insideRoi then (t, [])
  else if t.loiterAlertSent then (t, [])
  else
    let durationMs := now - t.enteredRoiMs
    if LOITERING_THRESHOLD_MS ≤ durationMs then
      ({ t with loiterAlertSent := true }, [Ev.loitering t.id t.label durationMs])
    else (t, [])

/-- The composition `updateRoiStatus(track); checkLoitering(track)` applied to
one track inside the first post-assignment loop of `updateTracks`. -/
def roiLoiterStep (hasRoi : Bool) (roi : List Point) (now : Int)
    (t : TrackState) : TrackState × List Ev :=
  checkLoitering (updateRoiStatus hasRoi roi t now) now

/-- Embeds `CaptureWorker::checkLineCrossing` for one track. -/
def checkLineCrossing (tw1 tw2 : Point) (t : TrackState) (now : Int) :
    TrackState × List Ev :=
  if t.centroid = t.prevCentroid then (t, [])
  else if now - t.lastTripwireAlertMs < TRIPWIRE_ALERT_DEBOUNCE_MS then (t, [])
  else
    let prevSide := computeSideOfLine tw1 tw2 t.prevCentroid
    let currSide := computeSideOfLine tw1 tw2 t.centroid
    if LINE_EPSILON < |prevSide| ∧ LINE_EPSILON < |currSide| ∧
        prevSide * currSide < 0 then
      ({ t with lastTripwireAlertMs := now },
        [Ev.trackTripwire t.id t.label (getCrossingDirection prevSide currSide)])
    else (t, [])

/-- A detection as returned by the object detector: class id and pixel
bounding box (`struct Detection` with a `cv::Rect`). -/
structure Detection where
  classId : Int
  box_x : Int
  box_y : Int
  box_w : Int
  box_h : Int
deriving DecidableEq

/-- The classes retained for tracking in `updateTracks`. -/
def trackedClasses : List String := ["person", "car", "bicycle", "dog", "cat"]

/-- Class-id to label lookup of `updateTracks` (falls back to "unknown" for
out-of-range ids). -/
def labelOf (classNames : List String) (classId : Int) : String :=
  if 0 ≤ classId ∧ classId < (classNames.length : Int) then
    classNames.getD classId.toNat "unknown"
  else "unknown"

/-- A kept detection with its normalized centroid (`DetectionWithCentroid`). -/
structure DetectionWithCentroid where
  centroid : Point
  detectionIndex : Int
  label : String
deriving DecidableEq

/-- Normalized centroid `((x + w/2)/W, (y + h/2)/H)` of a detection box. -/
def detCentroid (d : Detection) (w h : Int) : Point :=
  ⟨((d.box_x : ℚ) + (d.box_w : ℚ) / 2) / (w : ℚ),
   ((d.box_y : ℚ) + (d.box_h : ℚ) / 2) / (h : ℚ)⟩

/-- The filtering loop at the top of `updateTracks`: keep detections of the
tracked classes and record their normalized centroids, preserving order and
original indices. -/
def buildTrackedAux (classNames : List String) (w h : Int) (i : Int) :
    List Detection → List DetectionWithCentroid
  | [] => []
  | d :: ds =>
    let label := labelOf classNames d.classId
    if label ∈ trackedClasses then
      ⟨detCentroid d w h, i, label⟩ :: buildTrackedAux classNames w h (i + 1) ds
    else buildTrackedAux classNames w h (i + 1) ds

/-- See `buildTrackedAux`; indices start at 0. -/
def buildTrackedDetections (classNames : List String) (w h : Int)
    (dets : List Detection) : List DetectionWithCentroid :=
  buildTrackedAux classNames w h 0 dets

/-- Squared Euclidean distance between two points. -/
def distSq (a b : Point) : ℚ :=
  (a.x - b.x) * (a.x - b.x) + (a.y - b.y) * (a.y - b.y)

/-- Squared form of `MAX_TRACK_DISTANCE`. -/
def MAX_TRACK_DISTANCE_SQ : ℚ := MAX_TRACK_DISTANCE * MAX_TRACK_DISTANCE

/-- The inner loop of `updateTracks` that selects the closest existing track.
The source compares `std::sqrt(dx*dx + dy*dy)` against the running best
(initially `MAX_TRACK_DISTANCE`); the embedding compares the squares, which
orders identically. Returns the chosen id (or `-1`) with its squared
distance. -/
def findClosestTrack (tracks : List TrackState) (c : Point) : Int × ℚ :=
  tracks.foldl
    (fun best t => if distSq t.centroid c < best.2 then (t.id, distSq t.centroid c) else best)
    (-1, MAX_TRACK_DISTANCE_SQ)

/-- Accumulator of the assignment loop of `updateTracks`: current track list,
next fresh id, the `updatedTrackIds` set (as a deduplicated list in insertion
order), and the ordered log of track ids whose `centroid`/`lastSeenMs` were
written (one entry per processed detection). -/
structure AssignSt where
  tracks : List TrackState
  nextId : Int
  updated : List Int
  log : List Int
deriving DecidableEq

/-- Insertion into the `QSet<int> updatedTrackIds` model. -/
def insertIdOnce (l : List Int) (i : Int) : List Int :=
  if i ∈ l then l else l ++ [i]

/-- The body of the assignment loop of `updateTracks` for one detection:
match the closest existing track within `MAX_TRACK_DISTANCE`, else create a
new track. New tracks leave `lastTripwireAlertMs` and `enteredRoiMs` at the
`TrackState` constructor defaults (0). -/
def assignDetection (now : Int) (st : AssignSt) (dwc : DetectionWithCentroid) :
    AssignSt :=
  let best := findClosestTrack st.tracks dwc.centroid
  if 0 ≤ best.1 then
    { st with
      tracks := st.tracks.map (fun t =>
        if t.id = best.1 then
          { t with prevCentroid := t.centroid, centroid := dwc.centroid,
                   lastSeenMs := now }
        else t),
      updated := insertIdOnce st.updated best.1,
      log := st.log ++ [best.1] }
  else
    let newTrack : TrackState :=
      { id := st.nextId, label := dwc.label, centroid := dwc.centroid,
        prevCentroid := dwc.centroid, firstSeenMs := now, lastSeenMs := now,
        insideRoi := false, loiterAlertSent := false,
        lastTripwireAlertMs := 0, enteredRoiMs := 0 }
    { tracks := st.tracks ++ [newTrack], nextId := st.nextId + 1,
      updated := insertIdOnce st.updated st.nextId,
      log := st.log ++ [st.nextId] }

/-- The whole assignment loop of `updateTracks`. -/
def assignPhase (now : Int) (s : WorkerState)
    (tds : List DetectionWithCentroid) : AssignSt :=
  tds.foldl (assignDetection now) ⟨s.tracks, s.nextTrackId, [], []⟩

/-- Models `if (m_tracks.contains(trackId)) f(m_tracks[trackId])`: apply `f`
to the first track with the given id (ids are kept unique), collecting its
events; leave the list unchanged if the id is absent. -/
def updateTrackById (id : Int) (f : TrackState → TrackState × List Ev) :
    List TrackState → List TrackState × List Ev
  | [] => ([], [])
  | t :: ts =>
    if t.id = id then ((f t).1 :: ts, (f t).2)
    else
      let r := updateTrackById id f ts
      (t :: r.1, r.2)

/-- One of the two post-assignment loops of `updateTracks`: apply a per-track
step to every id in `updatedTrackIds`, in order, accumulating events. -/
def runPass (f : TrackState → TrackState × List Ev) :
    List TrackState → List Int → List TrackState × List Ev
  | tracks, [] => (tracks, [])
  | tracks, id :: ids =>
    let r := updateTrackById id f tracks
    let rest := runPass f r.1 ids
    (rest.1, r.2 ++ rest.2)

/-- Embeds `CaptureWorker::cleanupStaleTracks`. -/
def cleanupStaleTracks (now : Int) (tracks : List TrackState) :
    List TrackState :=
  tracks.filter (fun t => !decide (TRACK_TIMEOUT_MS < now - t.lastSeenMs))

/-- Detection-list input to `updateTracks` (detections plus the frame size). -/
structure TrackerIn where
  detections : List Detection
  frameWidth : Int
  frameHeight : Int
deriving DecidableEq

/-- Embeds `CaptureWorker::updateTracks`: filter detections, assign them to
tracks, run ROI/loitering on every updated track, then line crossing (when a
tripwire is set), then evict stale tracks. -/
def updateTracks (classNames : List String) (s : WorkerState) (inp : TrackerIn)
    (now : Int) : WorkerState × List Ev :=
  let tds := buildTrackedDetections classNames inp.frameWidth inp.frameHeight inp.detections
  let a := assignPhase now s tds
  let p1 := runPass (roiLoiterStep s.hasRoi s.roiNorm now) a.tracks a.updated
  let p2 :=
    if s.hasTripwire then
      runPass (fun t => checkLineCrossing s.tripwireStart s.tripwireEnd t now) p1.1 a.updated
    else (p1.1, [])
  let tracks4 := cleanupStaleTracks now p2.1
  ({ s with tracks := tracks4, nextTrackId := a.nextId }, p1.2 ++ p2.2)

/-- One captured frame's analytics-relevant data: the mask summary for the
motion path and the inference output for the AI path (`m_detector->infer`),
plus whether a detector is present and loaded. -/
structure FrameIn where
  mask : MaskData
  detections : List Detection
  detectorLoaded : Bool
deriving DecidableEq

/-- Embeds the analytics portion of `CaptureWorker::captureFrame`: the motion
path when enabled, then (every `AI_PROCESS_INTERVAL`-th frame when AI is
enabled and the detector is loaded) inference followed by `updateTracks`. -/
def captureFrame (classNames : List String) (s : WorkerState) (f : FrameIn)
    (now : Int) : WorkerState × List Ev :=
  let r1 := if s.motionEnabled then processMotionDetection s f.mask now else (s, [])
  let s1 := r1.1
  let r2 :=
    if s1.aiEnabled ∧ f.detectorLoaded then
      if AI_PROCESS_INTERVAL ≤ s1.aiFrameCounter + 1 then
        updateTracks classNames { s1 with aiFrameCounter := 0 }
          ⟨f.detections, f.mask.width, f.mask.height⟩ now
      else ({ s1 with aiFrameCounter := s1.aiFrameCounter + 1 }, [])
    else (s1, [])
  (r2.1, r1.2 ++ r2.2)

/-- Runs `captureFrame` over a list of timestamped frames, stamping every
emitted event with its frame's time. -/
def runFrames (classNames : List String) :
    WorkerState → List (Int × FrameIn) → WorkerState × List (Int × Ev)
  | s, [] => (s, [])
  | s, (now, f) :: rest =>
    let r := captureFrame classNames s f now
    let tl := runFrames classNames r.1 rest
    (tl.1, r.2.map (fun e => (now, e)) ++ tl.2)

/-- Class-name table with a single class, `person` (class id 0). -/
def exClassNames : List String := ["person"]

/-- A baseline worker: motion disabled, AI enabled with the frame counter one
step from firing, a horizontal tripwire across the middle of the frame, no
ROI, no tracks yet. -/
def exWorker : WorkerState :=
  { motionEnabled := false, motionSensitivity := 50, lastMotionTime := 0,
    hasRoi := false, roiNorm := [], lastRoiAlertTime := 0,
    hasTripwire := true, tripwireStart := ⟨0, 1/2⟩, tripwireEnd := ⟨1, 1/2⟩,
    lastTripwireAlertTime := 0, prevSide := 0, hasPrevSide := false,
    aiEnabled := true, aiFrameCounter := 4, tracks := [], nextTrackId := 1 }

/-- An existing track at normalized position (0.5, 0.45). -/
def exTrack1 : TrackState :=
  { id := 1, label := "person", centroid := ⟨1/2, 9/20⟩,
    prevCentroid := ⟨1/2, 9/20⟩, firstSeenMs := 99000, lastSeenMs := 99000,
    insideRoi := false, loiterAlertSent := false, lastTripwireAlertMs := 0,
    enteredRoiMs := 0 }

/-- Worker that already owns `exTrack1`. -/
def exWorkerC1 : WorkerState := { exWorker with tracks := [exTrack1], nextTrackId := 2 }

/-- Person detection whose centroid on a 100×100 frame is (0.5, 0.46). -/
def exDetA : Detection := ⟨0, 45, 41, 10, 10⟩

/-- Person detection whose centroid on a 100×100 frame is (0.5, 0.54). -/
def exDetB : Detection := ⟨0, 45, 49, 10, 10⟩

/-- Person detection whose centroid on a 100×100 frame is (0.5, 0.5). -/
def exDetMid : Detection := ⟨0, 45, 45, 10, 10⟩

/-- A frame carrying the two detections `exDetA`, `exDetB` on a 100×100
frame, with a loaded detector and an all-quiet motion mask. -/
def exFrame : FrameIn :=
  { mask := { motionPixels := 0, totalPixels := 10000, roiArea := 0,
              roiMotionPixels := 0, m00 := 0, m10 := 0, m01 := 0,
              width := 100, height := 100 },
    detections := [exDetA, exDetB], detectorLoaded := true }

/-- A track one frame after having moved across `exWorker`'s tripwire. -/
def exTrackCross : TrackState :=
  { id := 1, label := "person", centroid := ⟨1/2, 27/50⟩,
    prevCentroid := ⟨1/2, 23/50⟩, firstSeenMs := 99000, lastSeenMs := 100000,
    insideRoi := false, loiterAlertSent := false, lastTripwireAlertMs := 0,
    enteredRoiMs := 0 }

/-- A camera configuration (`struct CameraConfig` in `CameraManager.h`).
`tripwireStart`/`tripwireEnd` default to `QPointF()`, i.e. the origin. -/
structure CameraConfig where
  id : String
  name : String
  type : String
  source : String
  enabled : Bool
  hasRoi : Bool
  roiPoints : List Point
  hasTripwire : Bool
  tripwireStart : Point
  tripwireEnd : Point
deriving DecidableEq

/-- One element of the JSON `cameras` array, with its fields already
extracted the way `loadConfiguration` reads them: string fields default to
`""` and `enabled` to `false` for absent or wrongly-typed values
(`QJsonValue::toString`/`toBool` defaults); `roiPoints` is `some pts` exactly
when the element has `roi.points`; `tripwire` is `some` exactly when it has
both `tripwire.start` and `tripwire.end`. -/
structure CamObj where
  id : String
  name : String
  type : String
  source : String
  enabled : Bool
  roiPoints : Option (List Point)
  tripwire : Option (Point × Point)
deriving DecidableEq

/-- Embeds `qFuzzyIsNull` (absolute value at most 1e-12). -/
def qFuzzyIsNull (v : ℚ) : Bool := decide (|v| ≤ 1 / 1000000000000)

/-- Embeds `QPointF::isNull` (both coordinates exactly zero). -/
def pointIsNull (p : Point) : Bool := decide (p.x = 0) && decide (p.y = 0)

/-- The per-element body of `CameraManager::loadConfiguration`: read the
plain fields, then the optional ROI, then the optional tripwire with its
degenerate-endpoints check. -/
def parseCameraConfig (c : CamObj) : CameraConfig :=
  let base : CameraConfig :=
    { id := c.id, name := c.name, type := c.type, source := c.source,
      enabled := c.enabled, hasRoi := false, roiPoints := [],
      hasTripwire := false, tripwireStart := ⟨0, 0⟩, tripwireEnd := ⟨0, 0⟩ }
  let withRoi :=
    match c.roiPoints with
    | none => base
    | some pts => { base with roiPoints := pts, hasRoi := !pts.isEmpty }
  match c.tripwire with
  | none => withRoi
  | some (st, en) =>
      { withRoi with
        tripwireStart := st, tripwireEnd := en,
        hasTripwire :=
          !(pointIsNull st && pointIsNull en) &&
          !(qFuzzyIsNull st.x && qFuzzyIsNull st.y &&
            qFuzzyIsNull en.x && qFuzzyIsNull en.y) }

/-- Condition of the configuration file as found at startup. -/
inductive ConfigFile where
  | unreadable
  | invalidJson
  | json (cameras : List CamObj)
deriving DecidableEq

/-- Embeds `CameraManager::loadConfiguration`: `none` models a `false` return
(file unopenable, JSON invalid, or empty camera list — `m_configs` then holds
nothing); `some cfgs` models a `true` return with `m_configs = cfgs`. The
parsing loop stops after four cameras. -/
def loadConfiguration : ConfigFile → Option (List CameraConfig)
  | ConfigFile.unreadable => none
  | ConfigFile.invalidJson => none
  | ConfigFile.json cams =>
    let configs := (cams.take 4).map parseCameraConfig
    if configs.isEmpty then none else some configs

/-- The fallback configuration built in `CameraManager`'s constructor when
`loadConfiguration` fails. -/
def defaultCameraConfig : CameraConfig :=
  { id := "cam1", name := "Default Camera", type := "usb", source := "0",
    enabled := true, hasRoi := false, roiPoints := [],
    hasTripwire := false, tripwireStart := ⟨0, 0⟩, tripwireEnd := ⟨0, 0⟩ }

/-- The `m_configs` list right after `CameraManager`'s constructor ran. -/
def cameraManagerConfigs (f : ConfigFile) : List CameraConfig :=
  match loadConfiguration f with
  | some cfgs => cfgs
  | none => [defaultCameraConfig]

/-- Per-invocation record for one track: the frame time, whether the track
was inside the ROI after `updateRoiStatus` ran, and the events emitted by
`checkLoitering`. -/
structure RoiStepOut where
  time : Int
  inside : Bool
  events : List Ev
deriving DecidableEq

/-- The life of one track through successive `updateTracks` invocations that
all match it: each step first applies the assignment-loop update
(`prevCentroid := centroid; centroid := new; lastSeenMs := now`), then runs
`updateRoiStatus` followed by `checkLoitering` (`roiLoiterStep`), exactly as
the first post-assignment loop of `updateTracks` does. -/
def runTrackRoi (hasRoi : Bool) (roi : List Point) :
    TrackState → List (Int × Point) → TrackState × List RoiStepOut
  | t, [] => (t, [])
  | t, (now, c) :: rest =>
    let r := roiLoiterStep hasRoi roi now
      { t with prevCentroid := t.centroid, centroid := c, lastSeenMs := now }
    let tl := runTrackRoi hasRoi roi r.1 rest
    (tl.1, { time := now, inside := r.1.insideRoi, events := r.2 } :: tl.2)

/-- Specification predicate for the loitering state machine of one track.
The context is `none` while the track is outside the ROI, and
`some (entry, sent)` while it is inside an occupancy that began at time
`entry` with one-shot flag `sent`. It demands: no loitering event while
outside; while inside, a single `loitering` event, emitted exactly at the
first step at which the occupancy has lasted `LOITERING_THRESHOLD_MS`,
carrying the duration since the occupancy's entry time; exiting clears the
context, so a later re-entry starts a fresh occupancy that can fire again. -/
def loiterTraceOk (tid : Int) (lbl : String) :
    Option (Int × Bool) → List RoiStepOut → Prop
  | _, [] => True
  | ctx, r :: rest =>
    if r.inside then
      let entry := match ctx with | some q => q.1 | none => r.time
      let sent := match ctx with | some q => q.2 | none => false
      if sent = false ∧ LOITERING_THRESHOLD_MS ≤ r.time - entry then
        r.events = [Ev.loitering tid lbl (r.time - entry)] ∧
          loiterTraceOk tid lbl (some (entry, true)) rest
      else
        r.events = [] ∧ loiterTraceOk tid lbl (some (entry, sent)) rest
    else
      r.events = [] ∧ loiterTraceOk tid lbl none rest

/-- Doubling of embedded double quotes, the global
`escaped.replace("\x22", "\x22\x22")` of `exportAlertsToCsv`'s escape
lambda. Fields are modelled as lists of characters. -/
def doubleQuotes : List Char → List Char
  | [] => []
  | c :: rest =>
    if c = '"' then '"' :: '"' :: doubleQuotes rest
    else c :: doubleQuotes rest

/-- The `escape` lambda of `AlertLogModel::exportAlertsToCsv`: double every
embedded quote, then wrap the field in double quotes when the escaped text
contains a comma, a double quote, or a newline. -/
def escapeField (s : List Char) : List Char :=
  let escaped := doubleQuotes s
  if escaped.any (fun c => c = ',' || c = '"' || c = '\n')
  then '"' :: (escaped ++ ['"'])
  else escaped

/-- The exported columns of one alert: id, ISO timestamp, camera name, type,
message, snapshot path (each an arbitrary character string; the timestamp
has already been rendered by `toString(Qt::ISODate)`). -/
structure AlertRec where
  id : List Char
  timestamp : List Char
  cameraName : List Char
  typ : List Char
  message : List Char
  snapshotPath : List Char
deriving DecidableEq

/-- The column values of one alert, in output order. -/
def alertFields (a : AlertRec) : List (List Char) :=
  [a.id, a.timestamp, a.cameraName, a.typ, a.message, a.snapshotPath]

/-- The header line written by `exportAlertsToCsv`. -/
def csvHeader : List Char :=
  "ID,Timestamp,Camera Name,Type,Message,Snapshot Path\n".data

/-- One data row written by `exportAlertsToCsv`: the six escaped fields
joined by commas and terminated by a newline. -/
def csvRow (a : AlertRec) : List Char :=
  escapeField a.id ++ ',' :: (escapeField a.timestamp ++ ',' ::
    (escapeField a.cameraName ++ ',' :: (escapeField a.typ ++ ',' ::
      (escapeField a.message ++ ',' ::
        (escapeField a.snapshotPath ++ ['\n'])))))

/-- The full text written by `AlertLogModel::exportAlertsToCsv`. -/
def exportAlertsToCsv (alerts : List AlertRec) : List Char :=
  csvHeader ++ (alerts.map csvRow).flatten

/-- Modelled from the spec ("parsing the emitted CSV recovers the original
tuple"): an RFC-4180-style CSV reader, defined independently of the writer
and used only to state the round-trip property. This function reads a quoted
field body up to its closing quote, un-doubling embedded quote pairs, and
returns the field with the unconsumed remainder. -/
def parseQuoted : List Char → List Char × List Char
  | [] => ([], [])
  | [c] => if c = '"' then ([], []) else ([c], [])
  | c :: c2 :: rest =>
    if c = '"' then
      if c2 = '"' then
        let p := parseQuoted rest
        ('"' :: p.1, p.2)
      else ([], c2 :: rest)
    else
      let p := parseQuoted (c2 :: rest)
      (c :: p.1, p.2)

/-- Modelled from the spec: reads an unquoted CSV field, stopping before the
first comma or newline. -/
def parseUnquoted : List Char → List Char × List Char
  | [] => ([], [])
  | c :: rest =>
    if c = ',' ∨ c = '\n' then ([], c :: rest)
    else
      let p := parseUnquoted rest
      (c :: p.1, p.2)

/-- Modelled from the spec: reads one CSV field, quoted or unquoted. -/
def parseFieldAt (l : List Char) : List Char × List Char :=
  match l with
  | [] => parseUnquoted []
  | c :: rest => if c = '"' then parseQuoted rest else parseUnquoted (c :: rest)

/-- Modelled from the spec: reads one CSV record (fields separated by commas
up to a newline or the end of input). The fuel bounds the field count. -/
def parseRowAux : Nat → List Char → List (List Char) × List Char
  | 0, l => ([], l)
  | fuel + 1, l =>
    let p := parseFieldAt l
    match p.2 with
    | [] => ([p.1], [])
    | c :: rest =>
      if c = ',' then
        let q := parseRowAux fuel rest
        (p.1 :: q.1, q.2)
      else if c = '\n' then ([p.1], rest)
      else ([p.1], c :: rest)

/-- Modelled from the spec: reads CSV records until the input is exhausted.
The fuel bounds the record count. -/
def parseCsvAux : Nat → List Char → List (List (List Char))
  | 0, _ => []
  | _, [] => []
  | fuel + 1, l =>
    let p := parseRowAux (l.length + 1) l
    p.1 :: parseCsvAux fuel p.2

/-- Modelled from the spec: the CSV reader over a whole file. -/
def parseCsv (l : List Char) : List (List (List Char)) :=
  parseCsvAux l.length l

/-- The header columns as field values. -/
def csvHeaderFields : List (List Char) :=
  ["ID".data, "Timestamp".data, "Camera Name".data, "Type".data,
   "Message".data, "Snapshot Path".data]

/-- The header row viewed as a record (its cells contain no comma, quote or
newline, so escaping leaves them untouched). -/
def csvHeaderRec : AlertRec :=
  ⟨"ID".data, "Timestamp".data, "Camera Name".data, "Type".data,
   "Message".data, "Snapshot Path".data⟩

/-- Recognizer for whole-frame motion events. -/
def isMotionEv : Ev → Bool
  | Ev.motion _ => true
  | _ => false

/-- Recognizer for ROI-motion events. -/
def isRoiEv : Ev → Bool
  | Ev.roiMotion _ => true
  | _ => false

/-- Recognizer for mask-centroid tripwire events. -/
def isMaskTripEv : Ev → Bool
  | Ev.tripwire _ => true
  | _ => false

/-- The track id of a per-track tripwire event, if the event is one. -/
def trackTripId : Ev → Option Int
  | Ev.trackTripwire i _ _ => some i
  | _ => none

/-- Stamps every event of one frame with the frame's capture time. -/
def stampNow (now : Int) (evs : List Ev) : List (Int × Ev) :=
  evs.map (fun e => (now, e))

/-- Debounce predicate for one event kind over a timestamped event list:
each selected event arrives strictly more than `gap` after the previous
selected event (initially, after the `last` stamp). -/
def debounceGt (cat : Ev → Bool) (gap : Int) : Int → List (Int × Ev) → Prop
  | _, [] => True
  | last, (t, e) :: rest =>
    if cat e then gap < t - last ∧ debounceGt cat gap t rest
    else debounceGt cat gap last rest

/-- Per-track debounce predicate: each `trackTripwire` event for the given
track id arrives at least `TRIPWIRE_ALERT_DEBOUNCE_MS` after the previous
one for the same id; the optional context carries the time of the previous
alert, `none` when there is none to compare against. -/
def perTrackOk (i : Int) : Option Int → List (Int × Ev) → Prop
  | _, [] => True
  | ctx, (t, e) :: rest =>
    if trackTripId e = some i then
      (∀ lt, ctx = some lt → TRIPWIRE_ALERT_DEBOUNCE_MS ≤ t - lt) ∧
        perTrackOk i (some t) rest
    else perTrackOk i ctx rest

/-- The time of the last selected event of a stamped list, starting from an
initial stamp. -/
def lastCat (cat : Ev → Bool) : Int → List (Int × Ev) → Int
  | last, [] => last
  | last, (t, e) :: rest => lastCat cat (if cat e then t else last) rest

/-- The ids of a track list. -/
def trackIds (l : List TrackState) : List Int := l.map (fun t => t.id)

/-- Lookup of a track by id (ids are kept unique). -/
def findTrack : List TrackState → Int → Option TrackState
  | [], _ => none
  | t :: ts, i => if t.id = i then some t else findTrack ts i

/-- The per-track debounce context provided by a worker state: the last
tripwire-alert stamp of the live track with the given id, if it exists. -/
def ctxOf (s : WorkerState) (i : Int) : Option Int :=
  (findTrack s.tracks i).map (fun t => t.lastTripwireAlertMs)

/-- Well-formedness of the track map: ids are unique and below the
id counter. Holds initially (no tracks, counter 1) and is preserved by
`updateTracks`. -/
def TrackIdsOk (s : WorkerState) : Prop :=
  (trackIds s.tracks).Nodup ∧ ∀ t ∈ s.tracks, t.id < s.nextTrackId

/-- Per-track analog of `lastCat`: the time of the last tripwire event for
the given id, or the initial context. -/
def ptLast (i : Int) : Option Int → List (Int × Ev) → Option Int
  | ctx, [] => ctx
  | ctx, (t, e) :: rest =>
    ptLast i (if trackTripId e = some i then some t else ctx) rest

/-- A track id that is gone for good: not live, and below the id counter, so
it can never be issued again. -/
def isDead (s : WorkerState) (i : Int) : Prop :=
  i ∉ trackIds s.tracks ∧ i < s.nextTrackId

/-- Invariant of the assignment loop, relative to the worker state `orig`
that the loop started from and to the invocation time `now`: ids stay unique
and bounded by the id counter, which never decreases; pre-existing tracks
keep their per-track tripwire debounce stamp; tracks unknown to `orig`
carry a zero stamp; every updated id denotes a live track seen `now`;
dead ids stay dead; and `updatedTrackIds` holds no duplicates. -/
def AssignInv (orig : WorkerState) (now : Int) (st : AssignSt) : Prop :=
  (trackIds st.tracks).Nodup ∧
  (∀ t ∈ st.tracks, t.id < st.nextId) ∧
  orig.nextTrackId ≤ st.nextId ∧
  (∀ i t0, findTrack orig.tracks i = some t0 →
    ∃ t', findTrack st.tracks i = some t' ∧
      t'.lastTripwireAlertMs = t0.lastTripwireAlertMs) ∧
  (∀ i, findTrack orig.tracks i = none →
    findTrack st.tracks i = none ∨
    ∃ t', findTrack st.tracks i = some t' ∧ t'.lastTripwireAlertMs = 0) ∧
  (∀ i ∈ st.updated, ∃ t', findTrack st.tracks i = some t' ∧ t'.lastSeenMs = now) ∧
  (∀ i, i ∉ trackIds orig.tracks → i < orig.nextTrackId →
    i ∉ trackIds st.tracks ∧ i ∉ st.updated) ∧
  st.updated.Nodup

/-- The whole-frame motion stage of `processMotionDetection` (its first
`let` binding), factored out for case analysis; `processMotionDetection`
definitionally equals the composition of this stage with the ROI and
tripwire branches. -/
def motionStage (s : WorkerState) (d : MaskData) (now : Int) :
    WorkerState × List Ev :=
  let motionScore : ℚ := ((d.motionPixels : ℚ) * 100) / (d.totalPixels : ℚ)
  if motionThreshold s.motionSensitivity < motionScore then
    if 2000 < now - s.lastMotionTime then
      ({ s with lastMotionTime := now }, [Ev.motion motionScore])
    else (s, [])
  else (s, [])

/-- The ROI branch emits at most one event, and only of the `roiMotion` kind. -/
lemma processRoiMotion_events (s : WorkerState) (d : MaskData) (now : Int) :
    (processRoiMotion s d now).2 = [] ∨
    ∃ sc, (processRoiMotion s d now).2 = [Ev.roiMotion sc] := by
  unfold processRoiMotion
  dsimp only
  split
  · exact Or.inl rfl
  split
  · exact Or.inl rfl
  split
  · split
    · exact Or.inr ⟨_, rfl⟩
    · exact Or.inl rfl
  · exact Or.inl rfl

/-- The mask-centroid tripwire branch emits at most one event, and only of
the `tripwire` kind. -/
lemma processTripwire_events (s : WorkerState) (d : MaskData) (now : Int) :
    (processTripwire s d now).2 = [] ∨
    ∃ dir, (processTripwire s d now).2 = [Ev.tripwire dir] := by
  unfold processTripwire
  dsimp only
  split
  · exact Or.inl rfl
  split
  · split
    · split
      · exact Or.inr ⟨_, rfl⟩
      · exact Or.inl rfl
    · exact Or.inl rfl
  · exact Or.inl rfl

/-- CLAIM C6. For every sensitivity `s ∈ [0,100]` the computed motion
threshold equals `10 − 9.5·s/100`, and a frame whose post-morphology
foreground mask has zero nonzero pixels never triggers a motion event. -/
theorem claim_C6 (st : WorkerState) (d : MaskData) (now : Int)
    (h0 : 0 ≤ st.motionSensitivity) (h100 : st.motionSensitivity ≤ 100) :
    motionThreshold st.motionSensitivity = 10 - 9.5 * st.motionSensitivity / 100 ∧
    (d.motionPixels = 0 →
      ∀ sc : ℚ, Ev.motion sc ∉ (processMotionDetection st d now).2) := by
  constructor
  · unfold motionThreshold; ring
  · intro hz sc hmem
    have hthr : (0.5 : ℚ) ≤ motionThreshold st.motionSensitivity := by
      unfold motionThreshold
      nlinarith
    unfold processMotionDetection at hmem
    dsimp only at hmem
    rw [hz] at hmem
    simp only [Nat.cast_zero, zero_mul, zero_div] at hmem
    have hnot : ¬ (motionThreshold st.motionSensitivity < 0) := by linarith
    rw [if_neg hnot] at hmem
    simp only [List.nil_append, List.mem_append] at hmem
    rcases hmem with hmem | hmem
    · by_cases hroi : st.hasRoi
      · rw [if_pos hroi] at hmem
        rcases processRoiMotion_events st d now with h | ⟨s2, h⟩ <;>
          rw [h] at hmem <;> simp at hmem
      · rw [if_neg hroi] at hmem; simp at hmem
    · set s2 := (if st.hasRoi = true then processRoiMotion st d now else (st, [])).1
      by_cases htw : s2.hasTripwire
      · rw [if_pos htw] at hmem
        rcases processTripwire_events s2 d now with h | ⟨dir, h⟩ <;>
          rw [h] at hmem <;> simp at hmem
      · rw [if_neg htw] at hmem; simp at hmem

/-- Witness for C6 at sensitivity 50 and an all-zero mask. -/
theorem claim_C6_witness :
    (0 : ℚ) ≤ 50 ∧ (50 : ℚ) ≤ 100 ∧
    (motionThreshold 50 = 10 - 9.5 * 50 / 100 ∧
      (({ motionPixels := 0, totalPixels := 307200, roiArea := 0,
          roiMotionPixels := 0, m00 := 0, m10 := 0, m01 := 0,
          width := 640, height := 480 } : MaskData).motionPixels = 0 →
        ∀ sc : ℚ, Ev.motion sc ∉
          (processMotionDetection
            { motionEnabled := true, motionSensitivity := 50,
              lastMotionTime := 0, hasRoi := false, roiNorm := [],
              lastRoiAlertTime := 0, hasTripwire := false,
              tripwireStart := ⟨0, 0⟩, tripwireEnd := ⟨0, 0⟩,
              lastTripwireAlertTime := 0, prevSide := 0, hasPrevSide := false,
              aiEnabled := false, aiFrameCounter := 0, tracks := [],
              nextTrackId := 1 }
            { motionPixels := 0, totalPixels := 307200, roiArea := 0,
              roiMotionPixels := 0, m00 := 0, m10 := 0, m01 := 0,
              width := 640, height := 480 } 0).2)) :=
  ⟨by norm_num, by norm_num,
    claim_C6
      { motionEnabled := true, motionSensitivity := 50,
        lastMotionTime := 0, hasRoi := false, roiNorm := [],
        lastRoiAlertTime := 0, hasTripwire := false,
        tripwireStart := ⟨0, 0⟩, tripwireEnd := ⟨0, 0⟩,
        lastTripwireAlertTime := 0, prevSide := 0, hasPrevSide := false,
        aiEnabled := false, aiFrameCounter := 0, tracks := [],
        nextTrackId := 1 }
      { motionPixels := 0, totalPixels := 307200, roiArea := 0,
        roiMotionPixels := 0, m00 := 0, m10 := 0, m01 := 0,
        width := 640, height := 480 } 0 (by norm_num) (by norm_num)⟩

/-- checkLoitering emits at most one event: a `loitering` event for the
processed track, carrying the duration since its recorded ROI entry. -/
lemma checkLoitering_events (t : TrackState) (now : Int) :
    (checkLoitering t now).2 = [] ∨
    (checkLoitering t now).2 = [Ev.loitering t.id t.label (now - t.enteredRoiMs)] := by
  unfold checkLoitering
  dsimp only
  split
  · exact Or.inl rfl
  split
  · exact Or.inl rfl
  split
  · exact Or.inr rfl
  · exact Or.inl rfl

/-- roiLoiterStep emits at most one event, and only of the `loitering` kind,
for the processed track's id and label. -/
lemma roiLoiterStep_events (hasRoi : Bool) (roi : List Point) (now : Int)
    (t : TrackState) :
    ∀ e ∈ (roiLoiterStep hasRoi roi now t).2,
      ∃ d, e = Ev.loitering t.id t.label d := by
  intro e he
  unfold roiLoiterStep at he
  have hid : (updateRoiStatus hasRoi roi t now).id = t.id := by
    unfold updateRoiStatus; dsimp only; split <;> split <;> rfl
  have hlb : (updateRoiStatus hasRoi roi t now).label = t.label := by
    unfold updateRoiStatus; dsimp only; split <;> split <;> rfl
  rcases checkLoitering_events (updateRoiStatus hasRoi roi t now) now with h | h <;>
    rw [h] at he
  · simp at he
  · rw [List.mem_singleton] at he
    exact ⟨_, by rw [he, hid, hlb]⟩

/-- checkLineCrossing emits at most one event: a `trackTripwire` event for
the processed track, and only when the debounce gap has elapsed; in that case
the track's debounce stamp becomes `now` and nothing else than
`lastTripwireAlertMs` changes. -/
lemma checkLineCrossing_cases (tw1 tw2 : Point) (t : TrackState) (now : Int) :
    (checkLineCrossing tw1 tw2 t now = (t, [])) ∨
    (TRIPWIRE_ALERT_DEBOUNCE_MS ≤ now - t.lastTripwireAlertMs ∧
      (checkLineCrossing tw1 tw2 t now).1 = { t with lastTripwireAlertMs := now } ∧
      ∃ dir, (checkLineCrossing tw1 tw2 t now).2 = [Ev.trackTripwire t.id t.label dir]) := by
  unfold checkLineCrossing
  dsimp only
  split
  · exact Or.inl rfl
  split
  · exact Or.inl rfl
  split
  · rename_i h1 h2 h3
    exact Or.inr ⟨by omega, rfl, _, rfl⟩
  · exact Or.inl rfl

/-- Events produced by `updateTrackById` all come from applying the step
function to some track of the list. -/
lemma updateTrackById_events (id : Int) (f : TrackState → TrackState × List Ev)
    (tr : List TrackState) :
    ∀ e ∈ (updateTrackById id f tr).2, ∃ t ∈ tr, e ∈ (f t).2 := by
  induction tr with
  | nil => intro e he; simp [updateTrackById] at he
  | cons t ts ih =>
    intro e he
    unfold updateTrackById at he
    by_cases h : t.id = id
    · rw [if_pos h] at he
      exact ⟨t, List.mem_cons_self t ts, he⟩
    · rw [if_neg h] at he
      obtain ⟨t', ht', he'⟩ := ih e he
      exact ⟨t', List.mem_cons_of_mem t ht', he'⟩

/-- Events produced by `runPass` all come from applying the step function to
some track state (of one of the intermediate lists). -/
lemma runPass_events (f : TrackState → TrackState × List Ev)
    (tr : List TrackState) (ids : List Int) :
    ∀ e ∈ (runPass f tr ids).2, ∃ t, e ∈ (f t).2 := by
  induction ids generalizing tr with
  | nil => intro e he; simp [runPass] at he
  | cons i ids ih =>
    intro e he
    unfold runPass at he
    dsimp only at he
    rw [List.mem_append] at he
    rcases he with he | he
    · obtain ⟨t, _, he'⟩ := updateTrackById_events i f tr e he
      exact ⟨t, he'⟩
    · exact ih _ e he

/-- Every event emitted by `updateTracks` is a `loitering` or a
`trackTripwire` event. -/
lemma updateTracks_events (cn : List String) (s : WorkerState) (inp : TrackerIn)
    (now : Int) :
    ∀ e ∈ (updateTracks cn s inp now).2,
      (∃ i l d, e = Ev.loitering i l d) ∨
      (∃ i l dir, e = Ev.trackTripwire i l dir) := by
  intro e he
  unfold updateTracks at he
  dsimp only at he
  rw [List.mem_append] at he
  rcases he with he | he
  · obtain ⟨t, he'⟩ := runPass_events _ _ _ e he
    obtain ⟨d, rfl⟩ := roiLoiterStep_events _ _ _ t e he'
    exact Or.inl ⟨_, _, _, rfl⟩
  · by_cases htw : s.hasTripwire
    · rw [if_pos htw] at he
      obtain ⟨t, he'⟩ := runPass_events _ _ _ e he
      rcases checkLineCrossing_cases s.tripwireStart s.tripwireEnd t now with h | ⟨_, _, dir, h⟩
      · rw [h] at he'; simp at he'
      · rw [h, List.mem_singleton] at he'
        exact Or.inr ⟨_, _, _, he'⟩
    · rw [if_neg htw] at he; simp at he

/-- CLAIM C1 (counterexample): two detections at the same position are both
matched to track 1 by `updateTracks`'s assignment loop, so track 1's
`centroid`/`lastSeenMs` are written twice in a single invocation: the
ordered log of per-detection track updates is `[1, 1]`. -/
theorem claim_C1_counterexample :
    (assignPhase 100000 exWorkerC1
        (buildTrackedDetections exClassNames 100 100 [exDetMid, exDetMid])).log = [1, 1] ∧
    ¬ (assignPhase 100000 exWorkerC1
        (buildTrackedDetections exClassNames 100 100 [exDetMid, exDetMid])).log.Nodup := by
  have h : (assignPhase 100000 exWorkerC1
      (buildTrackedDetections exClassNames 100 100 [exDetMid, exDetMid])).log = [1, 1] := by
    norm_num [assignPhase, buildTrackedDetections, buildTrackedAux, labelOf,
      trackedClasses, detCentroid, assignDetection, findClosestTrack, distSq,
      MAX_TRACK_DISTANCE_SQ, MAX_TRACK_DISTANCE, insertIdOnce, exWorkerC1,
      exWorker, exTrack1, exDetMid, exClassNames]
  exact ⟨h, by rw [h]; decide⟩

/-- CLAIM C1 (amended): each detection of a tracked class performs exactly
one track update per invocation (it is assigned to at most one track), and
`updatedTrackIds` holds each track id at most once; but a single track may
receive several updates, as the counterexample shows. -/
theorem claim_C1_amended (now : Int) (s : WorkerState)
    (tds : List DetectionWithCentroid) :
    (assignPhase now s tds).log.length = tds.length ∧
    (assignPhase now s tds).updated.Nodup := by
  have key : ∀ (l : List DetectionWithCentroid) (st : AssignSt),
      st.updated.Nodup →
      (l.foldl (assignDetection now) st).log.length = st.log.length + l.length ∧
      (l.foldl (assignDetection now) st).updated.Nodup := by
    intro l
    induction l with
    | nil => intro st h; simpa using h
    | cons d ds ih =>
      intro st h
      have hstep : (assignDetection now st d).log.length = st.log.length + 1 ∧
          (assignDetection now st d).updated.Nodup := by
        unfold assignDetection
        dsimp only
        have hins : ∀ (u : List Int) (i : Int), u.Nodup → (insertIdOnce u i).Nodup := by
          intro u i hu
          unfold insertIdOnce
          split
          · exact hu
          · rename_i hni
            simpa [List.nodup_append] using ⟨hu, fun hmem => hni hmem⟩
        split
        · exact ⟨by simp, hins _ _ h⟩
        · exact ⟨by simp, hins _ _ h⟩
      obtain ⟨h1, h2⟩ := hstep
      obtain ⟨h3, h4⟩ := ih (assignDetection now st d) h2
      constructor
      · rw [List.foldl_cons, h3, h1, List.length_cons]; omega
      · rw [List.foldl_cons]; exact h4
  have := key tds ⟨s.tracks, s.nextTrackId, [], []⟩ (by simp)
  simpa [assignPhase] using this

/-- CLAIM C2 (counterexample): with motion detection disabled but AI enabled
and a tripwire configured, processing one frame emits a per-track tripwire
event. -/
theorem claim_C2_counterexample :
    exWorker.motionEnabled = false ∧ exWorker.aiEnabled = true ∧
    exWorker.hasTripwire = true ∧
    (captureFrame exClassNames exWorker exFrame 100000).2 =
      [Ev.trackTripwire 1 "person" "right to left"] := by
  refine ⟨rfl, rfl, rfl, ?_⟩
  norm_num [updateTracks, assignPhase, buildTrackedDetections, buildTrackedAux,
    labelOf, trackedClasses, detCentroid, assignDetection, findClosestTrack,
    distSq, MAX_TRACK_DISTANCE_SQ, MAX_TRACK_DISTANCE, insertIdOnce,
    runPass, updateTrackById, roiLoiterStep, updateRoiStatus, pointInRoi,
    checkLoitering, checkLineCrossing, computeSideOfLine, getCrossingDirection,
    cleanupStaleTracks, rotateBack, rayCastStep, LINE_EPSILON, abs_of_pos,
    abs_of_neg, TRIPWIRE_ALERT_DEBOUNCE_MS, LOITERING_THRESHOLD_MS,
    TRACK_TIMEOUT_MS, captureFrame, AI_PROCESS_INTERVAL, exFrame, exWorker, exDetA, exDetB, exClassNames]

/-- CLAIM C2 (amended): while motion detection is disabled, no whole-frame
motion, ROI-motion, or mask-centroid tripwire event is emitted for any
captured frame; only per-track events (tripwire crossings and loitering) can
still be emitted through the AI detection path. -/
theorem claim_C2_amended (cn : List String) (s : WorkerState) (f : FrameIn)
    (now : Int) (hm : s.motionEnabled = false) :
    ∀ e ∈ (captureFrame cn s f now).2,
      (∀ sc, e ≠ Ev.motion sc) ∧ (∀ sc, e ≠ Ev.roiMotion sc) ∧
      (∀ d, e ≠ Ev.tripwire d) := by
  intro e he
  unfold captureFrame at he
  rw [hm] at he
  simp only [Bool.false_eq_true, if_false, List.nil_append] at he
  split at he
  · split at he
    · rcases updateTracks_events _ _ _ _ e he with ⟨i, l, d, rfl⟩ | ⟨i, l, dir, rfl⟩ <;>
        exact ⟨fun sc => by simp, fun sc => by simp, fun d' => by simp⟩
    · simp at he
  · simp at he

/-- Witness for the amended C2 at the concrete frame of the counterexample. -/
theorem claim_C2_amended_witness :
    exWorker.motionEnabled = false ∧
    ∀ e ∈ (captureFrame exClassNames exWorker exFrame 100000).2,
      (∀ sc, e ≠ Ev.motion sc) ∧ (∀ sc, e ≠ Ev.roiMotion sc) ∧
      (∀ d, e ≠ Ev.tripwire d) :=
  ⟨rfl, claim_C2_amended exClassNames exWorker exFrame 100000 rfl⟩

/-- CLAIM C7 (counterexample): starting with no tracks, detection `exDetA`
creates track 1 and the later detection `exDetB` (within matching distance)
is matched to it, moving its centroid off its birth position; the track then
produces a line-crossing event in the very invocation that created it. -/
theorem claim_C7_counterexample :
    exWorker.tracks = [] ∧ exWorker.nextTrackId = 1 ∧
    (updateTracks exClassNames exWorker ⟨[exDetA, exDetB], 100, 100⟩ 100000).2 =
      [Ev.trackTripwire 1 "person" "right to left"] := by
  refine ⟨rfl, rfl, ?_⟩
  norm_num [updateTracks, assignPhase, buildTrackedDetections, buildTrackedAux,
    labelOf, trackedClasses, detCentroid, assignDetection, findClosestTrack,
    distSq, MAX_TRACK_DISTANCE_SQ, MAX_TRACK_DISTANCE, insertIdOnce,
    runPass, updateTrackById, roiLoiterStep, updateRoiStatus, pointInRoi,
    checkLoitering, checkLineCrossing, computeSideOfLine, getCrossingDirection,
    cleanupStaleTracks, rotateBack, rayCastStep, LINE_EPSILON, abs_of_pos,
    abs_of_neg, TRIPWIRE_ALERT_DEBOUNCE_MS, LOITERING_THRESHOLD_MS,
    TRACK_TIMEOUT_MS, exWorker, exDetA, exDetB, exClassNames]

/-- CLAIM C7 (amended): a track whose previous centroid still equals its
centroid (as on its birth frame, when no later detection of the same
invocation re-matched it) never produces a line-crossing event. -/
theorem claim_C7_amended (tw1 tw2 : Point) (t : TrackState) (now : Int)
    (h : t.centroid = t.prevCentroid) :
    checkLineCrossing tw1 tw2 t now = (t, []) := by
  unfold checkLineCrossing
  rw [if_pos h]

/-- Witness for the amended C7 on a freshly created track. -/
theorem claim_C7_amended_witness :
    exTrack1.centroid = exTrack1.prevCentroid ∧
    checkLineCrossing ⟨0, 1/2⟩ ⟨1, 1/2⟩ exTrack1 100000 = (exTrack1, []) :=
  ⟨rfl, claim_C7_amended ⟨0, 1/2⟩ ⟨1, 1/2⟩ exTrack1 100000 rfl⟩

/-- With opposite strict signs the crossing direction is never "unknown". -/
lemma getCrossingDirection_of_neg (p c : ℚ) (h : p * c < 0) :
    getCrossingDirection p c = "left to right" ∨
    getCrossingDirection p c = "right to left" := by
  rcases mul_neg_iff.mp h with ⟨hp, hc⟩ | ⟨hp, hc⟩
  · right
    unfold getCrossingDirection
    rw [if_neg (by rintro ⟨h1, _⟩; linarith), if_pos ⟨hp, hc⟩]
  · left
    unfold getCrossingDirection
    rw [if_pos ⟨hp, hc⟩]

/-- CLAIM C10. Every per-track tripwire event carries direction
"left to right" or "right to left"; the "unknown" branch of
`getCrossingDirection` is unreachable from `checkLineCrossing`'s firing
condition, whose third conjunct already forces strictly opposite signs. -/
theorem claim_C10 :
    (∀ (tw1 tw2 : Point) (t : TrackState) (now : Int) (id : Int) (lbl dir : String),
      Ev.trackTripwire id lbl dir ∈ (checkLineCrossing tw1 tw2 t now).2 →
      dir = "left to right" ∨ dir = "right to left") ∧
    (∀ p c : ℚ, p * c < 0 → getCrossingDirection p c ≠ "unknown") := by
  constructor
  · intro tw1 tw2 t now id lbl dir hmem
    unfold checkLineCrossing at hmem
    dsimp only at hmem
    split at hmem
    · simp at hmem
    split at hmem
    · simp at hmem
    split at hmem
    · rename_i hcond
      rw [List.mem_singleton] at hmem
      obtain ⟨h1, h2, h3⟩ := Ev.trackTripwire.inj hmem
      rcases getCrossingDirection_of_neg _ _ hcond.2.2 with h | h
      · exact Or.inl (h3.trans h)
      · exact Or.inr (h3.trans h)
    · simp at hmem
  · intro p c h
    rcases getCrossingDirection_of_neg p c h with h' | h' <;> rw [h'] <;> decide

/-- Witness for C10: a concrete crossing event whose direction is
"right to left", and the "unknown" branch avoided for `p = -1, c = 1`. -/
theorem claim_C10_witness :
    (Ev.trackTripwire 1 "person" "right to left" ∈
      (checkLineCrossing ⟨0, 1/2⟩ ⟨1, 1/2⟩ exTrackCross 100000).2) ∧
    ("right to left" = "left to right" ∨ "right to left" = "right to left") ∧
    ((-1 : ℚ) * 1 < 0 ∧ getCrossingDirection (-1) 1 ≠ "unknown") := by
  have hmem : Ev.trackTripwire 1 "person" "right to left" ∈
      (checkLineCrossing ⟨0, 1/2⟩ ⟨1, 1/2⟩ exTrackCross 100000).2 := by
    norm_num [checkLineCrossing, computeSideOfLine, getCrossingDirection,
      LINE_EPSILON, abs_of_pos, abs_of_neg, TRIPWIRE_ALERT_DEBOUNCE_MS,
      exTrackCross]
  exact ⟨hmem,
    claim_C10.1 ⟨0, 1/2⟩ ⟨1, 1/2⟩ exTrackCross 100000 1 "person" "right to left" hmem,
    by norm_num, claim_C10.2 (-1) 1 (by norm_num)⟩

/-- CLAIM C9. If the configuration file is missing (unopenable) or malformed
(invalid JSON), initialization falls back to exactly one camera
configuration — id "cam1", name "Default Camera", type "usb", source "0",
enabled, no ROI, no tripwire — and for every possible file condition the
constructor still produces a non-empty configuration list (the fallback is
never fatal). -/
theorem claim_C9 (f : ConfigFile) :
    ((f = ConfigFile.unreadable ∨ f = ConfigFile.invalidJson) →
      cameraManagerConfigs f =
        [{ id := "cam1", name := "Default Camera", type := "usb",
           source := "0", enabled := true, hasRoi := false, roiPoints := [],
           hasTripwire := false, tripwireStart := ⟨0, 0⟩,
           tripwireEnd := ⟨0, 0⟩ }]) ∧
    cameraManagerConfigs f ≠ [] := by
  cases f with
  | unreadable => exact ⟨fun _ => rfl, by simp [cameraManagerConfigs, loadConfiguration]⟩
  | invalidJson => exact ⟨fun _ => rfl, by simp [cameraManagerConfigs, loadConfiguration]⟩
  | json cams =>
    constructor
    · rintro (h | h) <;> exact absurd h (by simp)
    · unfold cameraManagerConfigs loadConfiguration
      dsimp only
      split
      · rename_i cfgs hcfgs
        split at hcfgs
        · exact absurd hcfgs (by simp)
        · rename_i hne
          intro hnil
          apply hne
          rw [Option.some_inj.mp hcfgs, hnil]
          rfl
      · simp

/-- Witness for C9 at a missing configuration file. -/
theorem claim_C9_witness :
    (ConfigFile.unreadable = ConfigFile.unreadable ∨
      ConfigFile.unreadable = ConfigFile.invalidJson) ∧
    cameraManagerConfigs ConfigFile.unreadable =
      [{ id := "cam1", name := "Default Camera", type := "usb",
         source := "0", enabled := true, hasRoi := false, roiPoints := [],
         hasTripwire := false, tripwireStart := ⟨0, 0⟩,
         tripwireEnd := ⟨0, 0⟩ }] ∧
    cameraManagerConfigs ConfigFile.unreadable ≠ [] :=
  ⟨Or.inl rfl, (claim_C9 ConfigFile.unreadable).1 (Or.inl rfl),
    (claim_C9 ConfigFile.unreadable).2⟩

/-- Refinement of `runTrackRoi` by the `loiterTraceOk` state machine: from
any track state matching the abstract context, the emitted trace satisfies
the specification predicate. -/
lemma runTrackRoi_loiterOk (hasRoi : Bool) (roi : List Point) :
    ∀ (steps : List (Int × Point)) (t : TrackState) (ctx : Option (Int × Bool)),
      (match ctx with
       | none => t.insideRoi = false ∧ t.loiterAlertSent = false
       | some q => t.insideRoi = true ∧ t.enteredRoiMs = q.1 ∧
           t.loiterAlertSent = q.2) →
      loiterTraceOk t.id t.label ctx (runTrackRoi hasRoi roi t steps).2 := by
  intro steps
  induction steps with
  | nil => intro t ctx h; simp [runTrackRoi, loiterTraceOk]
  | cons p rest ih =>
    obtain ⟨now, c⟩ := p
    intro t ctx h
    by_cases hb : pointInRoi hasRoi roi c = true
    · -- the track is inside the ROI at this step
      rcases ctx with _ | ⟨e, sent⟩
      · -- entering: the occupancy starts now
        obtain ⟨hin, hsent⟩ := h
        have hstep : roiLoiterStep hasRoi roi now
            { t with prevCentroid := t.centroid, centroid := c, lastSeenMs := now } =
            ({ t with prevCentroid := t.centroid, centroid := c, lastSeenMs := now, enteredRoiMs := now, insideRoi := true }, []) := by
          simp [roiLoiterStep, updateRoiStatus, checkLoitering, hb, hin, hsent,
            LOITERING_THRESHOLD_MS]
        rw [runTrackRoi, hstep]
        simp only [loiterTraceOk, LOITERING_THRESHOLD_MS]
        norm_num
        exact ih { t with prevCentroid := t.centroid, centroid := c, lastSeenMs := now, enteredRoiMs := now, insideRoi := true } (some (now, false)) ⟨rfl, rfl, hsent⟩
      · -- already inside: the occupancy continues
        obtain ⟨hin, hent, hsent⟩ := h
        by_cases hs : sent = true
        · -- alert already sent: nothing fires
          have hstep : roiLoiterStep hasRoi roi now
              { t with prevCentroid := t.centroid, centroid := c, lastSeenMs := now } =
              ({ t with prevCentroid := t.centroid, centroid := c, lastSeenMs := now, insideRoi := true }, []) := by
            simp [roiLoiterStep, updateRoiStatus, checkLoitering, hb, hin, hsent, hs]
          rw [runTrackRoi, hstep]
          simp only [loiterTraceOk]
          rw [if_pos trivial, if_neg (by simp [hs])]
          exact ⟨by trivial, ih { t with prevCentroid := t.centroid, centroid := c, lastSeenMs := now, insideRoi := true } (some (e, sent)) ⟨rfl, hent, hsent⟩⟩
        · -- alert not yet sent
          rw [Bool.not_eq_true] at hs
          by_cases hdur : LOITERING_THRESHOLD_MS ≤ now - e
          · -- threshold reached: the event fires once
            have hstep : roiLoiterStep hasRoi roi now
                { t with prevCentroid := t.centroid, centroid := c, lastSeenMs := now } =
                ({ t with prevCentroid := t.centroid, centroid := c, lastSeenMs := now, insideRoi := true, loiterAlertSent := true }, [Ev.loitering t.id t.label (now - e)]) := by
              simp [roiLoiterStep, updateRoiStatus, checkLoitering, hb, hin, hsent, hs,
                hent, hdur]
            rw [runTrackRoi, hstep]
            simp only [loiterTraceOk]
            rw [if_pos trivial, if_pos ⟨hs, hdur⟩]
            exact ⟨by trivial, ih { t with prevCentroid := t.centroid, centroid := c, lastSeenMs := now, insideRoi := true, loiterAlertSent := true } (some (e, true)) ⟨rfl, hent, rfl⟩⟩
          · -- threshold not yet reached: nothing fires
            have hstep : roiLoiterStep hasRoi roi now
                { t with prevCentroid := t.centroid, centroid := c, lastSeenMs := now } =
                ({ t with prevCentroid := t.centroid, centroid := c, lastSeenMs := now, insideRoi := true }, []) := by
              simp [roiLoiterStep, updateRoiStatus, checkLoitering, hb, hin, hsent, hs,
                hent, hdur]
            rw [runTrackRoi, hstep]
            simp only [loiterTraceOk]
            rw [if_pos trivial, if_neg (fun hcond => hdur hcond.2)]
            exact ⟨by trivial, ih { t with prevCentroid := t.centroid, centroid := c, lastSeenMs := now, insideRoi := true } (some (e, sent)) ⟨rfl, hent, hsent⟩⟩
    · -- the track is outside the ROI at this step
      rw [Bool.not_eq_true] at hb
      rcases ctx with _ | ⟨e, sent⟩
      · -- was outside, stays outside
        obtain ⟨hin, hsent⟩ := h
        have hstep : roiLoiterStep hasRoi roi now
            { t with prevCentroid := t.centroid, centroid := c, lastSeenMs := now } =
            ({ t with prevCentroid := t.centroid, centroid := c, lastSeenMs := now, insideRoi := false }, []) := by
          simp [roiLoiterStep, updateRoiStatus, checkLoitering, hb, hin, hsent]
        rw [runTrackRoi, hstep]
        simp only [loiterTraceOk]
        rw [if_neg (by simp)]
        exact ⟨by trivial, ih { t with prevCentroid := t.centroid, centroid := c, lastSeenMs := now, insideRoi := false } none ⟨rfl, hsent⟩⟩
      · -- exiting: the occupancy ends and the alert is re-armed
        obtain ⟨hin, hent, hsent⟩ := h
        have hstep : roiLoiterStep hasRoi roi now
            { t with prevCentroid := t.centroid, centroid := c, lastSeenMs := now } =
            ({ t with prevCentroid := t.centroid, centroid := c, lastSeenMs := now, enteredRoiMs := 0, loiterAlertSent := false, insideRoi := false }, []) := by
          simp [roiLoiterStep, updateRoiStatus, checkLoitering, hb, hin, hsent]
        rw [runTrackRoi, hstep]
        simp only [loiterTraceOk]
        rw [if_neg (by simp)]
        exact ⟨by trivial, ih { t with prevCentroid := t.centroid, centroid := c, lastSeenMs := now, enteredRoiMs := 0, loiterAlertSent := false, insideRoi := false } none ⟨rfl, rfl⟩⟩

/-- CLAIM C4. For a track that starts outside the ROI with a cleared alert
flag (as all freshly created tracks do), the loitering trace satisfies the
state-machine specification: a loitering event is emitted only when the
track has been inside the ROI for at least `LOITERING_THRESHOLD_MS = 8000`
ms counted from its recorded entry time, at most once per continuous
occupancy, and exiting then re-entering the ROI re-arms the alert. -/
theorem claim_C4 (hasRoi : Bool) (roi : List Point) (t0 : TrackState)
    (steps : List (Int × Point)) (hin : t0.insideRoi = false)
    (hsent : t0.loiterAlertSent = false) :
    loiterTraceOk t0.id t0.label none (runTrackRoi hasRoi roi t0 steps).2 :=
  runTrackRoi_loiterOk hasRoi roi steps t0 none ⟨hin, hsent⟩

/-- Witness for C4: a fresh track driven through three concrete steps. -/
theorem claim_C4_witness :
    exTrack1.insideRoi = false ∧ exTrack1.loiterAlertSent = false ∧
    loiterTraceOk exTrack1.id exTrack1.label none
      (runTrackRoi true [⟨3/10, 3/10⟩, ⟨7/10, 3/10⟩, ⟨7/10, 7/10⟩, ⟨3/10, 7/10⟩]
        exTrack1 [(1000, ⟨1/2, 1/2⟩), (9001, ⟨1/2, 1/2⟩), (9050, ⟨9/10, 9/10⟩)]).2 :=
  ⟨rfl, rfl,
    claim_C4 true [⟨3/10, 3/10⟩, ⟨7/10, 3/10⟩, ⟨7/10, 7/10⟩, ⟨3/10, 7/10⟩]
      exTrack1 [(1000, ⟨1/2, 1/2⟩), (9001, ⟨1/2, 1/2⟩), (9050, ⟨9/10, 9/10⟩)] rfl rfl⟩

/-- Behaviour of the closest-track fold: it either keeps the initial pair
`(-1, MAX_TRACK_DISTANCE_SQ)` or returns some listed track together with its
squared distance, strictly below the initial bound. -/
lemma findClosestTrack_spec (tracks : List TrackState) (c : Point) :
    findClosestTrack tracks c = (-1, MAX_TRACK_DISTANCE_SQ) ∨
    ∃ t ∈ tracks, findClosestTrack tracks c = (t.id, distSq t.centroid c) ∧
      distSq t.centroid c < MAX_TRACK_DISTANCE_SQ := by
  have aux : ∀ (l : List TrackState) (b : Int × ℚ),
      l.foldl (fun best t =>
        if distSq t.centroid c < best.2 then (t.id, distSq t.centroid c) else best) b = b ∨
      ∃ t ∈ l, l.foldl (fun best t =>
        if distSq t.centroid c < best.2 then (t.id, distSq t.centroid c) else best) b =
          (t.id, distSq t.centroid c) ∧ distSq t.centroid c < b.2 := by
    intro l
    induction l with
    | nil => intro b; exact Or.inl rfl
    | cons t ts ih =>
      intro b
      rw [List.foldl_cons]
      by_cases hlt : distSq t.centroid c < b.2
      · rw [if_pos hlt]
        rcases ih (t.id, distSq t.centroid c) with h | ⟨t', ht', h, hlt'⟩
        · exact Or.inr ⟨t, List.mem_cons_self t ts, h, hlt⟩
        · exact Or.inr ⟨t', List.mem_cons_of_mem t ht', h, lt_trans hlt' hlt⟩
      · rw [if_neg hlt]
        rcases ih b with h | ⟨t', ht', h, hlt'⟩
        · exact Or.inl h
        · exact Or.inr ⟨t', List.mem_cons_of_mem t ht', h, hlt'⟩
  rcases aux tracks (-1, MAX_TRACK_DISTANCE_SQ) with h | ⟨t, ht, h, hlt⟩
  · exact Or.inl h
  · exact Or.inr ⟨t, ht, h, hlt⟩

/-- CLAIM C5. In tracker assignment (squared-distance embedding of the
source's `sqrt` comparison, so `distance < 0.1` becomes
`distSq < MAX_TRACK_DISTANCE_SQ`): a detection is only ever matched to an
existing track at squared distance strictly below `0.1²`; a detection with
no track strictly closer than `0.1` creates a new track instead; and after
an `updateTracks` invocation completes, every remaining track satisfies
`now − lastSeenMs ≤ TRACK_TIMEOUT_MS = 2000`. -/
theorem claim_C5 :
    (∀ (tracks : List TrackState) (c : Point),
      0 ≤ (findClosestTrack tracks c).1 →
      ∃ t ∈ tracks, t.id = (findClosestTrack tracks c).1 ∧
        distSq t.centroid c < MAX_TRACK_DISTANCE_SQ) ∧
    (∀ (now : Int) (st : AssignSt) (dwc : DetectionWithCentroid),
      (∀ t ∈ st.tracks, MAX_TRACK_DISTANCE_SQ ≤ distSq t.centroid dwc.centroid) →
      (assignDetection now st dwc).tracks = st.tracks ++
        [{ id := st.nextId, label := dwc.label, centroid := dwc.centroid,
           prevCentroid := dwc.centroid, firstSeenMs := now, lastSeenMs := now,
           insideRoi := false, loiterAlertSent := false,
           lastTripwireAlertMs := 0, enteredRoiMs := 0 }]) ∧
    (∀ (cn : List String) (s : WorkerState) (inp : TrackerIn) (now : Int),
      ∀ t ∈ (updateTracks cn s inp now).1.tracks,
        now - t.lastSeenMs ≤ TRACK_TIMEOUT_MS) := by
  refine ⟨?_, ?_, ?_⟩
  · intro tracks c hpos
    rcases findClosestTrack_spec tracks c with h | ⟨t, ht, h, hlt⟩
    · rw [h] at hpos; norm_num at hpos
    · exact ⟨t, ht, by rw [h], hlt⟩
  · intro now st dwc hfar
    have hneg : ¬ (0 ≤ (findClosestTrack st.tracks dwc.centroid).1) := by
      rcases findClosestTrack_spec st.tracks dwc.centroid with h | ⟨t, ht, h, hlt⟩
      · rw [h]; norm_num
      · exact absurd hlt (not_lt.mpr (hfar t ht))
    unfold assignDetection
    rw [if_neg hneg]
  · intro cn s inp now t hmem
    unfold updateTracks at hmem
    simp only at hmem
    unfold cleanupStaleTracks at hmem
    rw [List.mem_filter] at hmem
    have := hmem.2
    simp only [Bool.not_eq_true', decide_eq_false_iff_not, not_lt] at this
    exact this

/-- Witness for C5 at concrete inputs: a matched detection, a far detection
creating a new track, and a full `updateTracks` invocation. -/
theorem claim_C5_witness :
    (0 ≤ (findClosestTrack [exTrack1] ⟨1/2, 1/2⟩).1 ∧
      ∃ t ∈ [exTrack1], t.id = (findClosestTrack [exTrack1] ⟨1/2, 1/2⟩).1 ∧
        distSq t.centroid ⟨1/2, 1/2⟩ < MAX_TRACK_DISTANCE_SQ) ∧
    ((∀ t ∈ ([] : List TrackState),
        MAX_TRACK_DISTANCE_SQ ≤ distSq t.centroid (⟨1/2, 1/2⟩ : Point)) ∧
      (assignDetection 100000 ⟨[], 1, [], []⟩ ⟨⟨1/2, 1/2⟩, 0, "person"⟩).tracks =
        [] ++ [{ id := 1, label := "person", centroid := ⟨1/2, 1/2⟩,
                 prevCentroid := ⟨1/2, 1/2⟩, firstSeenMs := 100000,
                 lastSeenMs := 100000, insideRoi := false,
                 loiterAlertSent := false, lastTripwireAlertMs := 0,
                 enteredRoiMs := 0 }]) ∧
    (∀ t ∈ (updateTracks exClassNames exWorker ⟨[exDetA, exDetB], 100, 100⟩ 100000).1.tracks,
      100000 - t.lastSeenMs ≤ TRACK_TIMEOUT_MS) := by
  have hpos : 0 ≤ (findClosestTrack [exTrack1] ⟨1/2, 1/2⟩).1 := by
    norm_num [findClosestTrack, distSq, MAX_TRACK_DISTANCE_SQ, MAX_TRACK_DISTANCE,
      exTrack1]
  refine ⟨⟨hpos, claim_C5.1 [exTrack1] ⟨1/2, 1/2⟩ hpos⟩,
    ⟨by simp, claim_C5.2.1 100000 ⟨[], 1, [], []⟩ ⟨⟨1/2, 1/2⟩, 0, "person"⟩ (by simp)⟩,
    claim_C5.2.2 exClassNames exWorker ⟨[exDetA, exDetB], 100, 100⟩ 100000⟩

/-- Doubling quotes is the identity on quote-free strings. -/
lemma doubleQuotes_eq_self (s : List Char) (h : ∀ c ∈ s, c ≠ '"') :
    doubleQuotes s = s := by
  induction s with
  | nil => rfl
  | cons c rest ih =>
    unfold doubleQuotes
    rw [if_neg (h c (List.mem_cons_self c rest)),
      ih (fun c' hc' => h c' (List.mem_cons_of_mem c hc'))]

/-- Quote doubling does not change whether the field contains a comma, a
quote, or a newline. -/
lemma doubleQuotes_any (s : List Char) :
    (doubleQuotes s).any (fun c => c = ',' || c = '"' || c = '\n') =
      s.any (fun c => c = ',' || c = '"' || c = '\n') := by
  induction s with
  | nil => rfl
  | cons c rest ih =>
    unfold doubleQuotes
    by_cases hc : c = '"'
    · rw [if_pos hc, hc]
      simp [List.any_cons, ih]
    · rw [if_neg hc]
      simp [List.any_cons, ih]

/-- parseQuoted steps over an ordinary character. -/
lemma parseQuoted_cons_ne (c : Char) (l : List Char) (hc : c ≠ '"') :
    parseQuoted (c :: l) = (c :: (parseQuoted l).1, (parseQuoted l).2) := by
  cases l with
  | nil => simp [parseQuoted, hc]
  | cons c2 rest => simp [parseQuoted, hc]

/-- parseQuoted un-doubles a quote pair. -/
lemma parseQuoted_qq (l : List Char) :
    parseQuoted ('"' :: '"' :: l) = ('"' :: (parseQuoted l).1, (parseQuoted l).2) := by
  simp [parseQuoted]

/-- parseQuoted stops at a closing quote followed by another character. -/
lemma parseQuoted_q_cons (c : Char) (l : List Char) (hc : c ≠ '"') :
    parseQuoted ('"' :: c :: l) = ([], c :: l) := by
  simp [parseQuoted, hc]

/-- parseQuoted stops at a closing quote at the end of input. -/
lemma parseQuoted_q_nil : parseQuoted ['"'] = ([], []) := by
  simp [parseQuoted]

/-- Reading back a quote-doubled body: the original field is recovered and
the text after the closing quote is untouched (provided it does not itself
start with a quote, which would read as a doubled pair). -/
lemma parseQuoted_doubled (s : List Char) :
    ∀ tail : List Char, (∀ t', tail ≠ '"' :: t') →
      parseQuoted (doubleQuotes s ++ '"' :: tail) = (s, tail) := by
  induction s with
  | nil =>
    intro tail htail
    cases tail with
    | nil => simpa using parseQuoted_q_nil
    | cons c t' =>
      have hc : c ≠ '"' := fun h => htail t' (by rw [h])
      simpa using parseQuoted_q_cons c t' hc
  | cons a s' ih =>
    intro tail htail
    by_cases ha : a = '"'
    · subst ha
      rw [show doubleQuotes ('"' :: s') = '"' :: '"' :: doubleQuotes s' from by
        simp [doubleQuotes]]
      rw [List.cons_append, List.cons_append, parseQuoted_qq, ih tail htail]
    · rw [show doubleQuotes (a :: s') = a :: doubleQuotes s' from by
        simp [doubleQuotes, ha]]
      rw [List.cons_append, parseQuoted_cons_ne a _ ha, ih tail htail]

/-- Reading back an unquoted clean field stops exactly at the delimiter. -/
lemma parseUnquoted_clean (s : List Char) (d : Char) (tail : List Char)
    (hs : ∀ c ∈ s, ¬(c = ',' ∨ c = '\n')) (hd : d = ',' ∨ d = '\n') :
    parseUnquoted (s ++ d :: tail) = (s, d :: tail) := by
  induction s with
  | nil =>
    rw [List.nil_append]
    unfold parseUnquoted
    rw [if_pos hd]
  | cons c s' ih =>
    rw [List.cons_append]
    unfold parseUnquoted
    rw [if_neg (hs c (List.mem_cons_self c s')),
      ih (fun c' h' => hs c' (List.mem_cons_of_mem c h'))]

/-- Reading back one escaped field before a delimiter recovers it exactly. -/
lemma escapeField_parse (f : List Char) (d : Char) (tail : List Char)
    (hd : d = ',' ∨ d = '\n') :
    parseFieldAt (escapeField f ++ d :: tail) = (f, d :: tail) := by
  have hdq : d ≠ '"' := by rcases hd with rfl | rfl <;> decide
  unfold escapeField
  dsimp only
  by_cases hq : (doubleQuotes f).any (fun c => c = ',' || c = '"' || c = '\n') = true
  · rw [if_pos hq]
    have hassoc : ('"' :: (doubleQuotes f ++ ['"'])) ++ d :: tail =
        '"' :: (doubleQuotes f ++ '"' :: (d :: tail)) := by simp
    rw [hassoc]
    have htail : ∀ t', (d :: tail) ≠ '"' :: t' := by
      intro t' h
      rw [List.cons.injEq] at h
      exact hdq h.1
    calc parseFieldAt ('"' :: (doubleQuotes f ++ '"' :: (d :: tail)))
        = parseQuoted (doubleQuotes f ++ '"' :: (d :: tail)) := by
          simp [parseFieldAt]
      _ = (f, d :: tail) := parseQuoted_doubled f (d :: tail) htail
  · rw [if_neg hq]
    rw [doubleQuotes_any] at hq
    have hclean : ∀ c ∈ f, ¬(c = ',' ∨ c = '"' ∨ c = '\n') := by
      intro c hc hbad
      apply hq
      rw [List.any_eq_true]
      refine ⟨c, hc, ?_⟩
      rcases hbad with h | h | h <;> simp [h]
    have hnq : ∀ c ∈ f, c ≠ '"' := fun c hc h => hclean c hc (Or.inr (Or.inl h))
    rw [doubleQuotes_eq_self f hnq]
    have hnd : ∀ c ∈ f, ¬(c = ',' ∨ c = '\n') := by
      intro c hc h
      rcases h with h | h
      · exact hclean c hc (Or.inl h)
      · exact hclean c hc (Or.inr (Or.inr h))
    cases f with
    | nil =>
      rw [List.nil_append]
      show (if d = '"' then parseQuoted tail else parseUnquoted (d :: tail)) =
        ([], d :: tail)
      rw [if_neg hdq]
      unfold parseUnquoted
      rw [if_pos hd]
    | cons c f' =>
      rw [List.cons_append]
      show (if c = '"' then parseQuoted (f' ++ d :: tail)
          else parseUnquoted (c :: (f' ++ d :: tail))) = (c :: f', d :: tail)
      rw [if_neg (hnq c (List.mem_cons_self c f'))]
      rw [← List.cons_append]
      exact parseUnquoted_clean (c :: f') d tail hnd hd

/-- parseRowAux consumes one comma-terminated field. -/
lemma parseRowAux_field_comma (f l : List Char) (fuel : Nat) :
    parseRowAux (fuel + 1) (escapeField f ++ ',' :: l) =
      (f :: (parseRowAux fuel l).1, (parseRowAux fuel l).2) := by
  conv_lhs => unfold parseRowAux
  rw [escapeField_parse f ',' l (Or.inl rfl)]
  simp

/-- parseRowAux consumes one newline-terminated field and ends the row. -/
lemma parseRowAux_field_nl (f rest : List Char) (fuel : Nat) :
    parseRowAux (fuel + 1) (escapeField f ++ '\n' :: rest) = ([f], rest) := by
  conv_lhs => unfold parseRowAux
  rw [escapeField_parse f '\n' rest (Or.inr rfl)]
  simp

/-- Reading back one emitted row recovers the six column values and leaves
the remaining text untouched. -/
lemma csvRow_parse (a : AlertRec) (rest : List Char) (fuel : Nat) :
    parseRowAux (fuel + 6) (csvRow a ++ rest) = (alertFields a, rest) := by
  unfold csvRow
  simp only [List.append_assoc, List.cons_append, List.singleton_append]
  rw [show fuel + 6 = (fuel + 5) + 1 from rfl, parseRowAux_field_comma]
  rw [show fuel + 5 = (fuel + 4) + 1 from rfl, parseRowAux_field_comma]
  rw [show fuel + 4 = (fuel + 3) + 1 from rfl, parseRowAux_field_comma]
  rw [show fuel + 3 = (fuel + 2) + 1 from rfl, parseRowAux_field_comma]
  rw [show fuel + 2 = (fuel + 1) + 1 from rfl, parseRowAux_field_comma]
  rw [parseRowAux_field_nl]
  rfl

/-- Every emitted row is at least six characters long (five commas and the
newline). -/
lemma csvRow_length (a : AlertRec) : 6 ≤ (csvRow a).length := by
  simp [csvRow]
  omega

/-- parseCsvAux on a non-empty input with positive fuel reads one row. -/
lemma parseCsvAux_cons (g : Nat) (c : Char) (cs : List Char) :
    parseCsvAux (g + 1) (c :: cs) =
      (parseRowAux ((c :: cs).length + 1) (c :: cs)).1 ::
        parseCsvAux g (parseRowAux ((c :: cs).length + 1) (c :: cs)).2 := rfl

/-- Reading back a concatenation of emitted rows recovers all the column
values, given enough fuel. -/
lemma rows_parse (alerts : List AlertRec) :
    ∀ fuel : Nat, ((alerts.map csvRow).flatten).length ≤ fuel →
      parseCsvAux fuel (alerts.map csvRow).flatten = alerts.map alertFields := by
  induction alerts with
  | nil => intro fuel hf; cases fuel <;> simp [parseCsvAux]
  | cons a as ih =>
    intro fuel hf
    rw [List.map_cons, List.flatten_cons] at hf ⊢
    have hrowlen := csvRow_length a
    have hlen : 6 + ((as.map csvRow).flatten).length ≤ fuel := by
      rw [List.length_append] at hf
      omega
    obtain ⟨g, rfl⟩ : ∃ g, fuel = g + 1 := ⟨fuel - 1, by omega⟩
    have hne : csvRow a ≠ [] := by
      intro h
      rw [h] at hrowlen
      simp at hrowlen
    obtain ⟨c, cs, hrow⟩ : ∃ c cs, csvRow a = c :: cs := by
      cases hcr : csvRow a with
      | nil => exact absurd hcr hne
      | cons c cs => exact ⟨c, cs, rfl⟩
    rw [hrow, List.cons_append, parseCsvAux_cons, ← List.cons_append, ← hrow]
    obtain ⟨k, hk⟩ : ∃ k, ((csvRow a ++ (as.map csvRow).flatten).length + 1) = k + 6 := by
      refine ⟨(csvRow a ++ (as.map csvRow).flatten).length - 5, ?_⟩
      rw [List.length_append]
      omega
    rw [hk, csvRow_parse]
    rw [ih g (by omega)]
    rfl

/-- CLAIM C8. CSV export writes exactly the header row
`ID,Timestamp,Camera Name,Type,Message,Snapshot Path`, and the escaping
discipline (fields containing a comma, double quote, or newline are wrapped
in double quotes with embedded quotes doubled) makes the output parse back,
with an RFC-4180-style reader, to the header columns followed by every
alert's original field values. -/
theorem claim_C8 (alerts : List AlertRec) :
    (exportAlertsToCsv alerts).take csvHeader.length = csvHeader ∧
    parseCsv (exportAlertsToCsv alerts) =
      csvHeaderFields :: alerts.map alertFields := by
  constructor
  · unfold exportAlertsToCsv
    exact List.take_left _ _
  · have hhdr : csvHeader = csvRow csvHeaderRec := by decide
    have hexp : exportAlertsToCsv alerts =
        ((csvHeaderRec :: alerts).map csvRow).flatten := by
      unfold exportAlertsToCsv
      rw [List.map_cons, List.flatten_cons, hhdr]
    rw [hexp]
    unfold parseCsv
    rw [rows_parse _ _ le_rfl, List.map_cons]
    rfl

/-- A list without selected events satisfies any debounce predicate. -/
lemma debounceGt_of_no_cat (cat : Ev → Bool) (gap : Int) :
    ∀ (l : List (Int × Ev)) (last : Int), (∀ q ∈ l, cat q.2 = false) →
      debounceGt cat gap last l := by
  intro l
  induction l with
  | nil => intro last h; trivial
  | cons q rest ih =>
    intro last h
    obtain ⟨t, e⟩ := q
    unfold debounceGt
    rw [if_neg (by rw [h (t, e) (List.mem_cons_self _ _)]; simp)]
    exact ih last (fun q hq => h q (List.mem_cons_of_mem _ hq))

/-- A list without selected events leaves the last stamp unchanged. -/
lemma lastCat_of_no_cat (cat : Ev → Bool) :
    ∀ (l : List (Int × Ev)) (last : Int), (∀ q ∈ l, cat q.2 = false) →
      lastCat cat last l = last := by
  intro l
  induction l with
  | nil => intro last h; rfl
  | cons q rest ih =>
    intro last h
    obtain ⟨t, e⟩ := q
    unfold lastCat
    rw [if_neg (by rw [h (t, e) (List.mem_cons_self _ _)]; simp)]
    exact ih last (fun q hq => h q (List.mem_cons_of_mem _ hq))

/-- Debounce predicates compose over concatenation, threading the last
selected stamp of the first part into the second. -/
lemma debounceGt_append_of (cat : Ev → Bool) (gap : Int) :
    ∀ (xs ys : List (Int × Ev)) (last : Int),
      debounceGt cat gap last xs →
      debounceGt cat gap (lastCat cat last xs) ys →
      debounceGt cat gap last (xs ++ ys) := by
  intro xs
  induction xs with
  | nil => intro ys last _ h2; exact h2
  | cons q rest ih =>
    intro ys last h1 h2
    obtain ⟨t, e⟩ := q
    rw [List.cons_append]
    unfold debounceGt
    unfold debounceGt at h1
    unfold lastCat at h2
    by_cases hc : cat e = true
    · rw [if_pos hc] at h1 ⊢
      rw [if_pos hc] at h2
      exact ⟨h1.1, ih ys t h1.2 h2⟩
    · rw [if_neg hc] at h1 ⊢
      rw [if_neg hc] at h2
      exact ih ys last h1 h2

/-- Case analysis of the ROI-motion branch: either nothing happens, or the
debounce gap has passed and a single `roiMotion` event is emitted with the
clock updated. -/
lemma processRoiMotion_cases (s : WorkerState) (d : MaskData) (now : Int) :
    processRoiMotion s d now = (s, []) ∨
    (3000 < now - s.lastRoiAlertTime ∧ ∃ sc,
      processRoiMotion s d now = ({ s with lastRoiAlertTime := now }, [Ev.roiMotion sc])) := by
  unfold processRoiMotion
  dsimp only
  split
  · exact Or.inl rfl
  split
  · exact Or.inl rfl
  split
  · split
    · rename_i hgap
      exact Or.inr ⟨hgap, _, rfl⟩
    · exact Or.inl rfl
  · exact Or.inl rfl

/-- Case analysis of the mask-centroid tripwire branch: either only the
previous-side state changes, or the debounce gap has passed and a single
`tripwire` event is emitted with the clock updated. -/
lemma processTripwire_cases (s : WorkerState) (d : MaskData) (now : Int) :
    (∃ ps b, processTripwire s d now = ({ s with prevSide := ps, hasPrevSide := b }, [])) ∨
    (2000 < now - s.lastTripwireAlertTime ∧ ∃ dir ps,
      processTripwire s d now =
        ({ s with lastTripwireAlertTime := now, prevSide := ps, hasPrevSide := true },
          [Ev.tripwire dir])) := by
  unfold processTripwire
  dsimp only
  split
  · exact Or.inl ⟨s.prevSide, false, rfl⟩
  split
  · split
    · split
      · rename_i hgap
        exact Or.inr ⟨hgap, _, _, rfl⟩
      · exact Or.inl ⟨_, true, rfl⟩
    · exact Or.inl ⟨_, true, rfl⟩
  · exact Or.inl ⟨_, true, rfl⟩

/-- updateTracks only rebuilds the track map and the id counter; in
particular the three emission clocks are untouched. -/
lemma updateTracks_clocks (cn : List String) (s : WorkerState) (inp : TrackerIn)
    (now : Int) :
    (updateTracks cn s inp now).1.lastMotionTime = s.lastMotionTime ∧
    (updateTracks cn s inp now).1.lastRoiAlertTime = s.lastRoiAlertTime ∧
    (updateTracks cn s inp now).1.lastTripwireAlertTime = s.lastTripwireAlertTime := by
  unfold updateTracks
  exact ⟨rfl, rfl, rfl⟩

/-- A found track has the id it was looked up by. -/
lemma findTrack_id : ∀ (l : List TrackState) (i : Int) (t : TrackState),
    findTrack l i = some t → t.id = i := by
  intro l
  induction l with
  | nil => intro i t h; simp [findTrack] at h
  | cons t0 ts ih =>
    intro i t h
    unfold findTrack at h
    split at h
    · rename_i heq
      rw [Option.some_inj] at h
      rw [← h]; exact heq
    · exact ih i t h

/-- findTrack misses exactly when the id is not among the track ids. -/
lemma findTrack_none_iff : ∀ (l : List TrackState) (i : Int),
    findTrack l i = none ↔ i ∉ trackIds l := by
  intro l
  induction l with
  | nil => intro i; simp [findTrack, trackIds]
  | cons t0 ts ih =>
    intro i
    unfold findTrack
    by_cases h : t0.id = i
    · rw [if_pos h]
      simp [trackIds, h]
    · rw [if_neg h, ih i]
      unfold trackIds
      simp only [List.map_cons, List.mem_cons]
      constructor
      · intro hni hmem
        rcases hmem with hmem | hmem
        · exact h hmem.symm
        · exact hni hmem
      · intro hni hmem
        exact hni (Or.inr hmem)

/-- findTrack commutes with mapping an id-preserving function. -/
lemma findTrack_map (g : TrackState → TrackState)
    (hg : ∀ t, (g t).id = t.id) :
    ∀ (l : List TrackState) (i : Int),
      findTrack (l.map g) i = (findTrack l i).map g := by
  intro l
  induction l with
  | nil => intro i; rfl
  | cons t0 ts ih =>
    intro i
    rw [List.map_cons]
    unfold findTrack
    by_cases h : t0.id = i
    · rw [if_pos (by rw [hg]; exact h), if_pos h]
      rfl
    · rw [if_neg (by rw [hg]; exact h), if_neg h]
      exact ih i

/-- findTrack over an appended new track. -/
lemma findTrack_append : ∀ (l : List TrackState) (nt : TrackState) (i : Int),
    findTrack (l ++ [nt]) i =
      match findTrack l i with
      | some t => some t
      | none => if nt.id = i then some nt else none := by
  intro l
  induction l with
  | nil => intro nt i; rfl
  | cons t0 ts ih =>
    intro nt i
    rw [List.cons_append]
    unfold findTrack
    by_cases h : t0.id = i
    · rw [if_pos h, if_pos h]
    · rw [if_neg h, if_neg h]
      exact ih nt i

/-- trackIds is unchanged by an id-preserving map. -/
lemma trackIds_map (g : TrackState → TrackState) (hg : ∀ t, (g t).id = t.id)
    (l : List TrackState) : trackIds (l.map g) = trackIds l := by
  unfold trackIds
  rw [List.map_map]
  exact List.map_congr_left (fun t _ => hg t)

/-- A timestamped list without events for the id satisfies the per-track
debounce with any context. -/
lemma perTrackOk_no_id (i : Int) : ∀ (l : List (Int × Ev)) (ctx : Option Int),
    (∀ q ∈ l, trackTripId q.2 ≠ some i) → perTrackOk i ctx l := by
  intro l
  induction l with
  | nil => intro ctx _; trivial
  | cons q rest ih =>
    intro ctx h
    obtain ⟨t, e⟩ := q
    unfold perTrackOk
    rw [if_neg (h (t, e) (List.mem_cons_self _ _))]
    exact ih ctx (fun q hq => h q (List.mem_cons_of_mem _ hq))

/-- Without events for the id the per-track context is unchanged. -/
lemma ptLast_no_id (i : Int) : ∀ (l : List (Int × Ev)) (ctx : Option Int),
    (∀ q ∈ l, trackTripId q.2 ≠ some i) → ptLast i ctx l = ctx := by
  intro l
  induction l with
  | nil => intro ctx _; rfl
  | cons q rest ih =>
    intro ctx h
    obtain ⟨t, e⟩ := q
    unfold ptLast
    rw [if_neg (h (t, e) (List.mem_cons_self _ _))]
    exact ih ctx (fun q hq => h q (List.mem_cons_of_mem _ hq))

/-- Per-track debounce composes over concatenation, threading the context. -/
lemma perTrackOk_append_of (i : Int) : ∀ (xs ys : List (Int × Ev)) (ctx : Option Int),
    perTrackOk i ctx xs → perTrackOk i (ptLast i ctx xs) ys →
    perTrackOk i ctx (xs ++ ys) := by
  intro xs
  induction xs with
  | nil => intro ys ctx _ h2; exact h2
  | cons q rest ih =>
    intro ys ctx h1 h2
    obtain ⟨t, e⟩ := q
    rw [List.cons_append]
    unfold perTrackOk
    unfold perTrackOk at h1
    unfold ptLast at h2
    by_cases hc : trackTripId e = some i
    · rw [if_pos hc] at h1 ⊢
      rw [if_pos hc] at h2
      exact ⟨h1.1, ih ys (some t) h1.2 h2⟩
    · rw [if_neg hc] at h1 ⊢
      rw [if_neg hc] at h2
      exact ih ys ctx h1 h2

/-- A per-track debounce with any context also holds with no context. -/
lemma perTrackOk_weaken (i : Int) : ∀ (l : List (Int × Ev)) (ctx : Option Int),
    perTrackOk i ctx l → perTrackOk i none l := by
  intro l
  induction l with
  | nil => intro ctx _; trivial
  | cons q rest ih =>
    intro ctx h
    obtain ⟨t, e⟩ := q
    unfold perTrackOk at h ⊢
    by_cases hc : trackTripId e = some i
    · rw [if_pos hc] at h ⊢
      exact ⟨fun lt hlt => Option.noConfusion hlt, h.2⟩
    · rw [if_neg hc] at h ⊢
      exact ih ctx h

/-- updateTrackById with an id-preserving step keeps the id list. -/
lemma updateTrackById_ids (i : Int) (f : TrackState → TrackState × List Ev)
    (hf : ∀ t, ((f t).1).id = t.id) :
    ∀ l, trackIds (updateTrackById i f l).1 = trackIds l := by
  intro l
  induction l with
  | nil => rfl
  | cons t ts ih =>
    unfold updateTrackById
    by_cases h : t.id = i
    · rw [if_pos h]
      unfold trackIds
      rw [List.map_cons, List.map_cons, hf t]
    · rw [if_neg h]
      unfold trackIds at ih ⊢
      rw [List.map_cons, List.map_cons, ih]

/-- Definitional equation of findTrack on a cons cell. -/
lemma findTrack_cons (t : TrackState) (ts : List TrackState) (i : Int) :
    findTrack (t :: ts) i = if t.id = i then some t else findTrack ts i := rfl

/-- Definitional equation of updateTrackById on a cons cell. -/
lemma updateTrackById_cons (i : Int) (f : TrackState → TrackState × List Ev)
    (t : TrackState) (ts : List TrackState) :
    updateTrackById i f (t :: ts) =
      if t.id = i then ((f t).1 :: ts, (f t).2)
      else (t :: (updateTrackById i f ts).1, (updateTrackById i f ts).2) := by
  by_cases h : t.id = i
  · rw [if_pos h]
    unfold updateTrackById
    rw [if_pos h]
  · rw [if_neg h]
    conv_lhs => unfold updateTrackById
    rw [if_neg h]

/-- updateTrackById transforms the looked-up track and nothing else; its
events are those of the step on the looked-up track. -/
lemma updateTrackById_find (i : Int) (f : TrackState → TrackState × List Ev)
    (hf : ∀ t, ((f t).1).id = t.id) :
    ∀ l, (findTrack (updateTrackById i f l).1 i =
        (findTrack l i).map (fun t => (f t).1)) ∧
      (∀ j, j ≠ i → findTrack (updateTrackById i f l).1 j = findTrack l j) ∧
      ((updateTrackById i f l).2 = match findTrack l i with
        | some t => (f t).2
        | none => []) := by
  intro l
  induction l with
  | nil => exact ⟨rfl, fun j _ => rfl, rfl⟩
  | cons t ts ih =>
    rw [updateTrackById_cons]
    by_cases h : t.id = i
    · have e2 : findTrack (t :: ts) i = some t := by
        rw [findTrack_cons, if_pos h]
      rw [if_pos h, e2]
      refine ⟨?_, ?_, rfl⟩
      · show findTrack ((f t).1 :: ts) i = some ((f t).1)
        rw [findTrack_cons, if_pos (by rw [hf t]; exact h)]
      · intro j hj
        show findTrack ((f t).1 :: ts) j = findTrack (t :: ts) j
        rw [findTrack_cons, findTrack_cons,
          if_neg (show ¬((f t).1.id = j) by rw [hf t, h]; exact fun hh => hj hh.symm),
          if_neg (show ¬(t.id = j) by rw [h]; exact fun hh => hj hh.symm)]
    · have e2 : findTrack (t :: ts) i = findTrack ts i := by
        rw [findTrack_cons, if_neg h]
      rw [if_neg h, e2]
      refine ⟨?_, ?_, ih.2.2⟩
      · show findTrack (t :: (updateTrackById i f ts).1) i = _
        rw [findTrack_cons, if_neg h]
        exact ih.1
      · intro j hj
        show findTrack (t :: (updateTrackById i f ts).1) j = findTrack (t :: ts) j
        rw [findTrack_cons, findTrack_cons]
        by_cases hj2 : t.id = j
        · rw [if_pos hj2, if_pos hj2]
        · rw [if_neg hj2, if_neg hj2]
          exact ih.2.1 j hj

/-- runPass with an id-preserving step keeps the id list. -/
lemma runPass_ids (f : TrackState → TrackState × List Ev)
    (hf : ∀ t, ((f t).1).id = t.id) :
    ∀ (ids : List Int) (tr : List TrackState),
      trackIds (runPass f tr ids).1 = trackIds tr := by
  intro ids
  induction ids with
  | nil => intro tr; rfl
  | cons a ids ih =>
    intro tr
    unfold runPass
    dsimp only
    rw [ih, updateTrackById_ids a f hf]

/-- runPass leaves tracks with unprocessed ids untouched. -/
lemma runPass_find_not_mem (f : TrackState → TrackState × List Ev)
    (hf : ∀ t, ((f t).1).id = t.id) :
    ∀ (ids : List Int) (tr : List TrackState) (j : Int), j ∉ ids →
      findTrack (runPass f tr ids).1 j = findTrack tr j := by
  intro ids
  induction ids with
  | nil => intro tr j _; rfl
  | cons a ids ih =>
    intro tr j hj
    unfold runPass
    dsimp only
    rw [ih _ j (fun h => hj (List.mem_cons_of_mem a h)),
      (updateTrackById_find a f hf tr).2.1 j (fun h => hj (h ▸ List.mem_cons_self a ids))]

/-- runPass applies the step exactly once to each processed id. -/
lemma runPass_find_mem (f : TrackState → TrackState × List Ev)
    (hf : ∀ t, ((f t).1).id = t.id) :
    ∀ (ids : List Int) (tr : List TrackState) (i : Int), ids.Nodup → i ∈ ids →
      findTrack (runPass f tr ids).1 i = (findTrack tr i).map (fun t => (f t).1) := by
  intro ids
  induction ids with
  | nil => intro tr i _ h; simp at h
  | cons a ids ih =>
    intro tr i hnd hi
    unfold runPass
    dsimp only
    rw [List.nodup_cons] at hnd
    rcases List.mem_cons.mp hi with rfl | hi'
    · rw [runPass_find_not_mem f hf ids _ i hnd.1]
      exact (updateTrackById_find i f hf tr).1
    · rw [ih _ i hnd.2 hi', (updateTrackById_find a f hf tr).2.1 i
        (fun h => hnd.1 (h ▸ hi'))]

/-- The per-id filtered events of a pass whose step emits only events tagged
with the processed track's id: the events for `i` are exactly those of the
step applied to the track `i` had when the pass began (empty if `i` is not
processed or not live). -/
lemma runPass_events_filter (f : TrackState → TrackState × List Ev)
    (hf : ∀ t, ((f t).1).id = t.id)
    (hown : ∀ t e, e ∈ (f t).2 → trackTripId e = some t.id) :
    ∀ (ids : List Int) (tr : List TrackState) (i : Int), ids.Nodup →
      (runPass f tr ids).2.filter (fun e => decide (trackTripId e = some i)) =
        (if i ∈ ids then
          match findTrack tr i with
          | some t => (f t).2
          | none => []
        else []) := by
  intro ids
  induction ids with
  | nil => intro tr i _; simp [runPass]
  | cons a ids ih =>
    intro tr i hnd
    rw [List.nodup_cons] at hnd
    unfold runPass
    dsimp only
    rw [List.filter_append]
    rw [(updateTrackById_find a f hf tr).2.2]
    rcases eq_or_ne i a with rfl | hia
    · rw [if_pos (List.mem_cons_self i ids)]
      have h2 : (runPass f (updateTrackById i f tr).1 ids).2.filter
          (fun e => decide (trackTripId e = some i)) = [] := by
        rw [ih _ i hnd.2, if_neg hnd.1]
      rw [h2, List.append_nil]
      cases hft : findTrack tr i with
      | none => rfl
      | some t =>
        have hid : t.id = i := findTrack_id tr i t hft
        apply List.filter_eq_self.mpr
        intro e he
        rw [hown t e he, hid]
        simp
    · have h1 : (match findTrack tr a with
          | some t => (f t).2
          | none => ([] : List Ev)).filter (fun e => decide (trackTripId e = some i)) = [] := by
        cases hft : findTrack tr a with
        | none => rfl
        | some t =>
          have hid : t.id = a := findTrack_id tr a t hft
          apply List.filter_eq_nil_iff.mpr
          intro e he
          rw [hown t e he, hid]
          simp
          exact fun h => hia h.symm
      rw [h1, List.nil_append]
      rw [ih _ i hnd.2, (updateTrackById_find a f hf tr).2.1 i hia]
      by_cases hm : i ∈ ids
      · rw [if_pos hm, if_pos (List.mem_cons_of_mem a hm)]
      · rw [if_neg hm,
          if_neg (fun h => (List.mem_cons.mp h).elim (fun h' => hia h') hm)]

/-- Membership in the updated-id set model. -/
lemma insertIdOnce_mem (l : List Int) (i j : Int) :
    j ∈ insertIdOnce l i ↔ j ∈ l ∨ j = i := by
  unfold insertIdOnce
  split
  · rename_i h
    constructor
    · exact fun hj => Or.inl hj
    · rintro (hj | rfl)
      · exact hj
      · exact h
  · simp

/-- insertIdOnce keeps the updated-id set duplicate-free. -/
lemma insertIdOnce_nodup (l : List Int) (i : Int) (h : l.Nodup) :
    (insertIdOnce l i).Nodup := by
  unfold insertIdOnce
  split
  · exact h
  · rename_i hni
    simpa [List.nodup_append] using ⟨h, fun hmem => hni hmem⟩

/-- One step of the assignment loop preserves the invariant. -/
lemma assignDetection_inv (orig : WorkerState) (now : Int) (st : AssignSt)
    (dwc : DetectionWithCentroid) (hinv : AssignInv orig now st) :
    AssignInv orig now (assignDetection now st dwc) := by
  obtain ⟨hnd, hbound, hnext, hkeep, hnew, hupd, hdead, hund⟩ := hinv
  unfold assignDetection
  dsimp only
  by_cases hbest : (0 : Int) ≤ (findClosestTrack st.tracks dwc.centroid).1
  · rw [if_pos hbest]
    set bid := (findClosestTrack st.tracks dwc.centroid).1 with hbid
    set g : TrackState → TrackState := fun t =>
      if t.id = bid then
        { t with prevCentroid := t.centroid, centroid := dwc.centroid,
                 lastSeenMs := now }
      else t with hg
    have hgid : ∀ t, (g t).id = t.id := by
      intro t
      rw [hg]
      dsimp only
      split <;> rfl
    have hgtrip : ∀ t, (g t).lastTripwireAlertMs = t.lastTripwireAlertMs := by
      intro t
      rw [hg]
      dsimp only
      split <;> rfl
    have hmem_bid : bid ∈ trackIds st.tracks := by
      rcases findClosestTrack_spec st.tracks dwc.centroid with h | ⟨t, ht, h, _⟩
      · rw [hbid, h] at hbest
        simp at hbest
      · rw [hbid, h]
        exact List.mem_map.mpr ⟨t, ht, rfl⟩
    refine ⟨?_, ?_, hnext, ?_, ?_, ?_, ?_, insertIdOnce_nodup _ _ hund⟩
    · rw [trackIds_map g hgid]
      exact hnd
    · intro t ht
      obtain ⟨t0, ht0, rfl⟩ := List.mem_map.mp ht
      rw [hgid]
      exact hbound t0 ht0
    · intro i t0 h0
      obtain ⟨t', ht', htrip⟩ := hkeep i t0 h0
      refine ⟨g t', ?_, by rw [hgtrip]; exact htrip⟩
      rw [findTrack_map g hgid, ht']
      rfl
    · intro i h0
      rcases hnew i h0 with h | ⟨t', ht', htrip⟩
      · left
        rw [findTrack_map g hgid, h]
        rfl
      · right
        refine ⟨g t', ?_, by rw [hgtrip]; exact htrip⟩
        rw [findTrack_map g hgid, ht']
        rfl
    · intro i hi
      rw [insertIdOnce_mem] at hi
      rcases hi with hi | rfl
      · obtain ⟨t', ht', hseen⟩ := hupd i hi
        refine ⟨g t', ?_, ?_⟩
        · rw [findTrack_map g hgid, ht']
          rfl
        · rw [hg]
          dsimp only
          split
          · rfl
          · exact hseen
      · obtain ⟨tb, htb⟩ : ∃ tb, findTrack st.tracks bid = some tb := by
          cases hft : findTrack st.tracks bid with
          | none => exact absurd hmem_bid ((findTrack_none_iff st.tracks bid).mp hft)
          | some tb => exact ⟨tb, rfl⟩
        have htbid : tb.id = bid := findTrack_id _ _ _ htb
        refine ⟨g tb, ?_, ?_⟩
        · rw [findTrack_map g hgid, htb]
          rfl
        · rw [hg]
          dsimp only
          rw [if_pos htbid]
    · intro i hino hilt
      obtain ⟨h1, h2⟩ := hdead i hino hilt
      constructor
      · rw [trackIds_map g hgid]
        exact h1
      · rw [insertIdOnce_mem]
        rintro (h | rfl)
        · exact h2 h
        · exact h1 hmem_bid
  · rw [if_neg hbest]
    set nt : TrackState :=
      { id := st.nextId, label := dwc.label, centroid := dwc.centroid,
        prevCentroid := dwc.centroid, firstSeenMs := now, lastSeenMs := now,
        insideRoi := false, loiterAlertSent := false,
        lastTripwireAlertMs := 0, enteredRoiMs := 0 } with hnt
    have hnotin : st.nextId ∉ trackIds st.tracks := by
      intro hmem
      obtain ⟨t, ht, hid⟩ := List.mem_map.mp hmem
      exact absurd hid (ne_of_lt (hbound t ht))
    have hids_app : trackIds (st.tracks ++ [nt]) = trackIds st.tracks ++ [st.nextId] := by
      unfold trackIds
      rw [List.map_append]
      rfl
    refine ⟨?_, ?_, by dsimp only; omega, ?_, ?_, ?_, ?_, insertIdOnce_nodup _ _ hund⟩
    · rw [hids_app]
      rw [List.nodup_append]
      exact ⟨hnd, List.nodup_singleton _, by
        intro a ha hb
        rw [List.mem_singleton] at hb
        rw [hb] at ha
        exact hnotin ha⟩
    · intro t ht
      rcases List.mem_append.mp ht with ht | ht
      · exact lt_trans (hbound t ht) (by dsimp only; omega)
      · rw [List.mem_singleton] at ht
        rw [ht, hnt]
        dsimp only
        omega
    · intro i t0 h0
      obtain ⟨t', ht', htrip⟩ := hkeep i t0 h0
      refine ⟨t', ?_, htrip⟩
      rw [findTrack_append, ht']
    · intro i h0
      rcases hnew i h0 with h | ⟨t', ht', htrip⟩
      · by_cases hni : st.nextId = i
        · right
          refine ⟨nt, ?_, rfl⟩
          rw [findTrack_append, h]
          dsimp only
          rw [if_pos hni]
        · left
          rw [findTrack_append, h]
          dsimp only
          rw [if_neg hni]
      · right
        refine ⟨t', ?_, htrip⟩
        rw [findTrack_append, ht']
    · intro i hi
      rw [insertIdOnce_mem] at hi
      rcases hi with hi | rfl
      · obtain ⟨t', ht', hseen⟩ := hupd i hi
        refine ⟨t', ?_, hseen⟩
        rw [findTrack_append, ht']
      · refine ⟨nt, ?_, rfl⟩
        have h0 : findTrack st.tracks st.nextId = none :=
          (findTrack_none_iff _ _).mpr hnotin
        rw [findTrack_append, h0]
        dsimp only
        rw [if_pos rfl]
    · intro i hino hilt
      obtain ⟨h1, h2⟩ := hdead i hino hilt
      have hne : i ≠ st.nextId := by omega
      constructor
      · rw [hids_app]
        rw [List.mem_append]
        rintro (h | h)
        · exact h1 h
        · rw [List.mem_singleton] at h
          exact hne h
      · rw [insertIdOnce_mem]
        rintro (h | h)
        · exact h2 h
        · exact hne h

/-- The whole assignment loop preserves the invariant, and holds at the
start for a well-formed worker state. -/
lemma assignPhase_inv (s : WorkerState) (now : Int) (hok : TrackIdsOk s)
    (tds : List DetectionWithCentroid) :
    AssignInv s now (assignPhase now s tds) := by
  have hstart : AssignInv s now ⟨s.tracks, s.nextTrackId, [], []⟩ := by
    refine ⟨hok.1, hok.2, le_refl _, ?_, ?_, ?_, ?_, List.nodup_nil⟩
    · exact fun i t0 h0 => ⟨t0, h0, rfl⟩
    · exact fun i h0 => Or.inl h0
    · intro i hi
      simp at hi
    · intro i h1 _
      exact ⟨h1, by simp⟩
  have hfold : ∀ (l : List DetectionWithCentroid) (st : AssignSt),
      AssignInv s now st → AssignInv s now (l.foldl (assignDetection now) st) := by
    intro l
    induction l with
    | nil => exact fun st h => h
    | cons d ds ih =>
      intro st h
      rw [List.foldl_cons]
      exact ih _ (assignDetection_inv s now st d h)
  exact hfold tds _ hstart
/-- Definitional equation of lastCat on a cons cell. -/
lemma lastCat_cons (cat : Ev → Bool) (last t : Int) (e : Ev)
    (l : List (Int × Ev)) :
    lastCat cat last ((t, e) :: l) =
      lastCat cat (if cat e then t else last) l := rfl

/-- lastCat accumulates over concatenation. -/
lemma lastCat_append (cat : Ev → Bool) :
    ∀ (xs ys : List (Int × Ev)) (last : Int),
      lastCat cat last (xs ++ ys) = lastCat cat (lastCat cat last xs) ys := by
  intro xs
  induction xs with
  | nil => intro ys last; rfl
  | cons q rest ih =>
    intro ys last
    obtain ⟨t, e⟩ := q
    rw [List.cons_append, lastCat_cons, lastCat_cons]
    exact ih ys _

/-- stampNow distributes over concatenation. -/
lemma stampNow_append (now : Int) (xs ys : List Ev) :
    stampNow now (xs ++ ys) = stampNow now xs ++ stampNow now ys := by
  unfold stampNow
  exact List.map_append _ _ _

/-- Members of a stamped list are the original events, stamped with `now`. -/
lemma stampNow_snd (now : Int) (evs : List Ev) :
    ∀ q ∈ stampNow now evs, q.2 ∈ evs ∧ q.1 = now := by
  intro q hq
  unfold stampNow at hq
  obtain ⟨e, he, rfl⟩ := List.mem_map.mp hq
  exact ⟨he, rfl⟩

/-- Filtering a stamped list by a property of the event alone commutes with
the stamping. -/
lemma stampNow_filter (now : Int) (p : Ev → Bool) :
    ∀ l : List Ev,
      (stampNow now l).filter (fun q => p q.2) = stampNow now (l.filter p) := by
  intro l
  induction l with
  | nil => rfl
  | cons e rest ih =>
    unfold stampNow at ih ⊢
    simp only [List.map_cons, List.filter_cons]
    by_cases hp : p e = true
    · rw [if_pos hp, if_pos hp, List.map_cons, ih]
    · rw [if_neg hp, if_neg hp, ih]

/-- Definitional equation of ptLast on a cons cell. -/
lemma ptLast_cons (i : Int) (ctx : Option Int) (t : Int) (e : Ev)
    (l : List (Int × Ev)) :
    ptLast i ctx ((t, e) :: l) =
      ptLast i (if trackTripId e = some i then some t else ctx) l := rfl

/-- When a stamped frame contains an event for the id, the per-track context
after it is the frame's stamp. -/
lemma ptLast_stampNow (i now : Int) :
    ∀ (evs : List Ev) (ctx : Option Int) (e : Ev), e ∈ evs →
      trackTripId e = some i → ptLast i ctx (stampNow now evs) = some now := by
  intro evs
  induction evs with
  | nil => intro ctx e he; simp at he
  | cons e0 rest ih =>
    intro ctx e he hei
    show ptLast i ctx ((now, e0) :: stampNow now rest) = some now
    rw [ptLast_cons]
    by_cases h0 : trackTripId e0 = some i
    · rw [if_pos h0]
      by_cases hr : ∃ e2 ∈ rest, trackTripId e2 = some i
      · obtain ⟨e2, he2, hei2⟩ := hr
        exact ih (some now) e2 he2 hei2
      · push_neg at hr
        exact ptLast_no_id i _ _ (fun q hq =>
          hr q.2 (stampNow_snd now rest q hq).1)
    · rw [if_neg h0]
      rcases List.mem_cons.mp he with rfl | he2
      · exact absurd hei h0
      · exact ih ctx e he2 hei

/-- Case analysis of the whole-frame motion stage: either nothing happens,
or the debounce gap has passed and a single `motion` event is emitted with
the clock updated. -/
lemma motionStage_cases (s : WorkerState) (d : MaskData) (now : Int) :
    motionStage s d now = (s, []) ∨
    (2000 < now - s.lastMotionTime ∧ ∃ sc,
      motionStage s d now = ({ s with lastMotionTime := now }, [Ev.motion sc])) := by
  unfold motionStage
  dsimp only
  split
  · split
    · rename_i hgap
      exact Or.inr ⟨hgap, _, rfl⟩
    · exact Or.inl rfl
  · exact Or.inl rfl

/-- processMotionDetection is the motion stage followed by the ROI and
tripwire branches. -/
lemma processMotionDetection_decomp (s : WorkerState) (d : MaskData)
    (now : Int) :
    processMotionDetection s d now =
      (let r1 := motionStage s d now
       let r2 := if r1.1.hasRoi then processRoiMotion r1.1 d now else (r1.1, [])
       let r3 := if r2.1.hasTripwire then processTripwire r2.1 d now else (r2.1, [])
       (r3.1, r1.2 ++ r2.2 ++ r3.2)) := rfl
/-- Step facts of the whole-frame motion stage: motion debounce and clock
threading over its stamped events; all other state components untouched; the
events are motion events only. -/
lemma motionStage_step (s : WorkerState) (d : MaskData) (now : Int) :
    debounceGt isMotionEv 2000 s.lastMotionTime
      (stampNow now (motionStage s d now).2) ∧
    (motionStage s d now).1.lastMotionTime =
      lastCat isMotionEv s.lastMotionTime (stampNow now (motionStage s d now).2) ∧
    (motionStage s d now).1.lastRoiAlertTime = s.lastRoiAlertTime ∧
    (motionStage s d now).1.lastTripwireAlertTime = s.lastTripwireAlertTime ∧
    (motionStage s d now).1.tracks = s.tracks ∧
    (motionStage s d now).1.nextTrackId = s.nextTrackId ∧
    ∀ e ∈ (motionStage s d now).2,
      isRoiEv e = false ∧ isMaskTripEv e = false ∧ trackTripId e = none := by
  rcases motionStage_cases s d now with h | ⟨hg, sc, h⟩ <;> rw [h]
  · exact ⟨trivial, rfl, rfl, rfl, rfl, rfl, by simp⟩
  · refine ⟨?_, ?_, rfl, rfl, rfl, rfl, ?_⟩
    · simp only [stampNow, List.map_cons, List.map_nil, debounceGt, isMotionEv,
        if_true]
      exact ⟨hg, trivial⟩
    · simp [stampNow, lastCat, isMotionEv]
    · simp [isRoiEv, isMaskTripEv, trackTripId]

/-- Step facts of the ROI-motion branch: ROI debounce and clock threading
over its stamped events; all other state components untouched; the events
are ROI events only. -/
lemma processRoiMotion_step (s : WorkerState) (d : MaskData) (now : Int) :
    debounceGt isRoiEv 3000 s.lastRoiAlertTime
      (stampNow now (processRoiMotion s d now).2) ∧
    (processRoiMotion s d now).1.lastRoiAlertTime =
      lastCat isRoiEv s.lastRoiAlertTime (stampNow now (processRoiMotion s d now).2) ∧
    (processRoiMotion s d now).1.lastMotionTime = s.lastMotionTime ∧
    (processRoiMotion s d now).1.lastTripwireAlertTime = s.lastTripwireAlertTime ∧
    (processRoiMotion s d now).1.tracks = s.tracks ∧
    (processRoiMotion s d now).1.nextTrackId = s.nextTrackId ∧
    ∀ e ∈ (processRoiMotion s d now).2,
      isMotionEv e = false ∧ isMaskTripEv e = false ∧ trackTripId e = none := by
  rcases processRoiMotion_cases s d now with h | ⟨hg, sc, h⟩ <;> rw [h]
  · exact ⟨trivial, rfl, rfl, rfl, rfl, rfl, by simp⟩
  · refine ⟨?_, ?_, rfl, rfl, rfl, rfl, ?_⟩
    · simp only [stampNow, List.map_cons, List.map_nil, debounceGt, isRoiEv,
        if_true]
      exact ⟨hg, trivial⟩
    · simp [stampNow, lastCat, isRoiEv]
    · simp [isMotionEv, isMaskTripEv, trackTripId]

/-- Step facts of the mask-centroid tripwire branch: tripwire debounce and
clock threading over its stamped events; the emission clocks of the other
kinds, the track map and the id counter untouched; the events are mask
tripwire events only. -/
lemma processTripwire_step (s : WorkerState) (d : MaskData) (now : Int) :
    debounceGt isMaskTripEv 2000 s.lastTripwireAlertTime
      (stampNow now (processTripwire s d now).2) ∧
    (processTripwire s d now).1.lastTripwireAlertTime =
      lastCat isMaskTripEv s.lastTripwireAlertTime
        (stampNow now (processTripwire s d now).2) ∧
    (processTripwire s d now).1.lastMotionTime = s.lastMotionTime ∧
    (processTripwire s d now).1.lastRoiAlertTime = s.lastRoiAlertTime ∧
    (processTripwire s d now).1.tracks = s.tracks ∧
    (processTripwire s d now).1.nextTrackId = s.nextTrackId ∧
    ∀ e ∈ (processTripwire s d now).2,
      isMotionEv e = false ∧ isRoiEv e = false ∧ trackTripId e = none := by
  rcases processTripwire_cases s d now with ⟨ps, b, h⟩ | ⟨hg, dir, ps, h⟩ <;> rw [h]
  · exact ⟨trivial, rfl, rfl, rfl, rfl, rfl, by simp⟩
  · refine ⟨?_, ?_, rfl, rfl, rfl, rfl, ?_⟩
    · simp only [stampNow, List.map_cons, List.map_nil, debounceGt, isMaskTripEv,
        if_true]
      exact ⟨hg, trivial⟩
    · simp [stampNow, lastCat, isMaskTripEv]
    · simp [isMotionEv, isRoiEv, trackTripId]
/-- One motion-path step: each emission clock respects its debounce over the
frame's stamped events and ends up at the stamp of the last event of its
kind; the track map and the id counter are untouched and no per-track
tripwire event is emitted. -/
lemma processMotionDetection_step (s : WorkerState) (d : MaskData) (now : Int) :
    debounceGt isMotionEv 2000 s.lastMotionTime
      (stampNow now (processMotionDetection s d now).2) ∧
    (processMotionDetection s d now).1.lastMotionTime =
      lastCat isMotionEv s.lastMotionTime
        (stampNow now (processMotionDetection s d now).2) ∧
    debounceGt isRoiEv 3000 s.lastRoiAlertTime
      (stampNow now (processMotionDetection s d now).2) ∧
    (processMotionDetection s d now).1.lastRoiAlertTime =
      lastCat isRoiEv s.lastRoiAlertTime
        (stampNow now (processMotionDetection s d now).2) ∧
    debounceGt isMaskTripEv 2000 s.lastTripwireAlertTime
      (stampNow now (processMotionDetection s d now).2) ∧
    (processMotionDetection s d now).1.lastTripwireAlertTime =
      lastCat isMaskTripEv s.lastTripwireAlertTime
        (stampNow now (processMotionDetection s d now).2) ∧
    (processMotionDetection s d now).1.tracks = s.tracks ∧
    (processMotionDetection s d now).1.nextTrackId = s.nextTrackId ∧
    ∀ e ∈ (processMotionDetection s d now).2, trackTripId e = none := by
  obtain ⟨md, ml, mroi, mtw, mtr, mnx, mev⟩ := motionStage_step s d now
  rw [processMotionDetection_decomp]
  dsimp only
  set r1 := motionStage s d now with hr1
  set r2 := if r1.1.hasRoi = true then processRoiMotion r1.1 d now
    else (r1.1, []) with hr2
  set r3 := if r2.1.hasTripwire = true then processTripwire r2.1 d now
    else (r2.1, []) with hr3
  have R2 : debounceGt isRoiEv 3000 r1.1.lastRoiAlertTime (stampNow now r2.2) ∧
      r2.1.lastRoiAlertTime =
        lastCat isRoiEv r1.1.lastRoiAlertTime (stampNow now r2.2) ∧
      r2.1.lastMotionTime = r1.1.lastMotionTime ∧
      r2.1.lastTripwireAlertTime = r1.1.lastTripwireAlertTime ∧
      r2.1.tracks = r1.1.tracks ∧
      r2.1.nextTrackId = r1.1.nextTrackId ∧
      ∀ e ∈ r2.2, isMotionEv e = false ∧ isMaskTripEv e = false ∧
        trackTripId e = none := by
    rw [hr2]
    by_cases hroi : r1.1.hasRoi = true
    · rw [if_pos hroi]
      exact processRoiMotion_step r1.1 d now
    · rw [if_neg hroi]
      exact ⟨trivial, rfl, rfl, rfl, rfl, rfl, by simp⟩
  obtain ⟨rd, rl, rm, rtw, rtr, rnx, rev⟩ := R2
  have R3 : debounceGt isMaskTripEv 2000 r2.1.lastTripwireAlertTime
        (stampNow now r3.2) ∧
      r3.1.lastTripwireAlertTime =
        lastCat isMaskTripEv r2.1.lastTripwireAlertTime (stampNow now r3.2) ∧
      r3.1.lastMotionTime = r2.1.lastMotionTime ∧
      r3.1.lastRoiAlertTime = r2.1.lastRoiAlertTime ∧
      r3.1.tracks = r2.1.tracks ∧
      r3.1.nextTrackId = r2.1.nextTrackId ∧
      ∀ e ∈ r3.2, isMotionEv e = false ∧ isRoiEv e = false ∧
        trackTripId e = none := by
    rw [hr3]
    by_cases htw : r2.1.hasTripwire = true
    · rw [if_pos htw]
      exact processTripwire_step r2.1 d now
    · rw [if_neg htw]
      exact ⟨trivial, rfl, rfl, rfl, rfl, rfl, by simp⟩
  obtain ⟨td, tl, tm, troi, ttr, tnx, tev⟩ := R3
  have hnc2 : ∀ q ∈ stampNow now r2.2, isMotionEv q.2 = false :=
    fun q hq => (rev q.2 (stampNow_snd now r2.2 q hq).1).1
  have hnc3 : ∀ q ∈ stampNow now r3.2, isMotionEv q.2 = false :=
    fun q hq => (tev q.2 (stampNow_snd now r3.2 q hq).1).1
  have hnr1 : ∀ q ∈ stampNow now r1.2, isRoiEv q.2 = false :=
    fun q hq => (mev q.2 (stampNow_snd now r1.2 q hq).1).1
  have hnr3 : ∀ q ∈ stampNow now r3.2, isRoiEv q.2 = false :=
    fun q hq => (tev q.2 (stampNow_snd now r3.2 q hq).1).2.1
  have hnt1 : ∀ q ∈ stampNow now r1.2, isMaskTripEv q.2 = false :=
    fun q hq => (mev q.2 (stampNow_snd now r1.2 q hq).1).2.1
  have hnt2 : ∀ q ∈ stampNow now r2.2, isMaskTripEv q.2 = false :=
    fun q hq => (rev q.2 (stampNow_snd now r2.2 q hq).1).2.1
  refine ⟨?_, ?_, ?_, ?_, ?_, ?_, ?_, ?_, ?_⟩
  · rw [stampNow_append, stampNow_append]
    refine debounceGt_append_of _ _ _ _ _
      (debounceGt_append_of _ _ _ _ _ md
        (debounceGt_of_no_cat _ _ _ _ hnc2))
      (debounceGt_of_no_cat _ _ _ _ hnc3)
  · rw [stampNow_append, stampNow_append, lastCat_append, lastCat_append,
      lastCat_of_no_cat isMotionEv (stampNow now r2.2)
        (lastCat isMotionEv s.lastMotionTime (stampNow now r1.2)) hnc2,
      lastCat_of_no_cat isMotionEv (stampNow now r3.2)
        (lastCat isMotionEv s.lastMotionTime (stampNow now r1.2)) hnc3,
      tm, rm, ml]
  · rw [stampNow_append, stampNow_append]
    refine debounceGt_append_of _ _ _ _ _
      (debounceGt_append_of _ _ _ _ _
        (debounceGt_of_no_cat _ _ _ _ hnr1) ?_)
      (debounceGt_of_no_cat _ _ _ _ hnr3)
    rw [lastCat_of_no_cat isRoiEv (stampNow now r1.2) s.lastRoiAlertTime hnr1]
    rw [mroi] at rd
    exact rd
  · rw [stampNow_append, stampNow_append, lastCat_append, lastCat_append,
      lastCat_of_no_cat isRoiEv (stampNow now r1.2) s.lastRoiAlertTime hnr1]
    rw [lastCat_of_no_cat isRoiEv (stampNow now r3.2)
      (lastCat isRoiEv s.lastRoiAlertTime (stampNow now r2.2)) hnr3,
      troi, rl, mroi]
  · rw [stampNow_append, stampNow_append]
    refine debounceGt_append_of _ _ _ _ _
      (debounceGt_append_of _ _ _ _ _
        (debounceGt_of_no_cat _ _ _ _ hnt1)
        (debounceGt_of_no_cat _ _ _ _ hnt2)) ?_
    rw [lastCat_append,
      lastCat_of_no_cat isMaskTripEv (stampNow now r1.2)
        s.lastTripwireAlertTime hnt1,
      lastCat_of_no_cat isMaskTripEv (stampNow now r2.2)
        s.lastTripwireAlertTime hnt2]
    rw [rtw, mtw] at td
    exact td
  · rw [stampNow_append, stampNow_append, lastCat_append, lastCat_append,
      lastCat_of_no_cat isMaskTripEv (stampNow now r1.2)
        s.lastTripwireAlertTime hnt1,
      lastCat_of_no_cat isMaskTripEv (stampNow now r2.2)
        s.lastTripwireAlertTime hnt2,
      tl, rtw, mtw]
  · rw [ttr, rtr, mtr]
  · rw [tnx, rnx, mnx]
  · intro e he
    rcases List.mem_append.mp he with he | he
    · rcases List.mem_append.mp he with he | he
      · exact (mev e he).2.2
      · exact (rev e he).2.2
    · exact (tev e he).2.2
/-- updateTracks never emits motion, ROI-motion or mask-tripwire events. -/
lemma updateTracks_events_noCat (cn : List String) (s : WorkerState)
    (inp : TrackerIn) (now : Int) :
    ∀ e ∈ (updateTracks cn s inp now).2,
      isMotionEv e = false ∧ isRoiEv e = false ∧ isMaskTripEv e = false := by
  intro e he
  rcases updateTracks_events cn s inp now e he with ⟨i, l, dur, rfl⟩ | ⟨i, l, dir, rfl⟩ <;>
    exact ⟨rfl, rfl, rfl⟩

/-- One captured frame: each emission clock respects its debounce over the
frame's stamped events and ends up at the stamp of the last event of its
kind. -/
lemma captureFrame_clocks_step (cn : List String) (s : WorkerState)
    (f : FrameIn) (now : Int) :
    debounceGt isMotionEv 2000 s.lastMotionTime
      (stampNow now (captureFrame cn s f now).2) ∧
    (captureFrame cn s f now).1.lastMotionTime =
      lastCat isMotionEv s.lastMotionTime
        (stampNow now (captureFrame cn s f now).2) ∧
    debounceGt isRoiEv 3000 s.lastRoiAlertTime
      (stampNow now (captureFrame cn s f now).2) ∧
    (captureFrame cn s f now).1.lastRoiAlertTime =
      lastCat isRoiEv s.lastRoiAlertTime
        (stampNow now (captureFrame cn s f now).2) ∧
    debounceGt isMaskTripEv 2000 s.lastTripwireAlertTime
      (stampNow now (captureFrame cn s f now).2) ∧
    (captureFrame cn s f now).1.lastTripwireAlertTime =
      lastCat isMaskTripEv s.lastTripwireAlertTime
        (stampNow now (captureFrame cn s f now).2) := by
  unfold captureFrame
  dsimp only
  set r1 := if s.motionEnabled = true then processMotionDetection s f.mask now
    else (s, []) with hR1
  have H1 : debounceGt isMotionEv 2000 s.lastMotionTime (stampNow now r1.2) ∧
      r1.1.lastMotionTime =
        lastCat isMotionEv s.lastMotionTime (stampNow now r1.2) ∧
      debounceGt isRoiEv 3000 s.lastRoiAlertTime (stampNow now r1.2) ∧
      r1.1.lastRoiAlertTime =
        lastCat isRoiEv s.lastRoiAlertTime (stampNow now r1.2) ∧
      debounceGt isMaskTripEv 2000 s.lastTripwireAlertTime (stampNow now r1.2) ∧
      r1.1.lastTripwireAlertTime =
        lastCat isMaskTripEv s.lastTripwireAlertTime (stampNow now r1.2) := by
    rw [hR1]
    by_cases hme : s.motionEnabled = true
    · rw [if_pos hme]
      obtain ⟨a1, a2, a3, a4, a5, a6, _, _, _⟩ :=
        processMotionDetection_step s f.mask now
      exact ⟨a1, a2, a3, a4, a5, a6⟩
    · rw [if_neg hme]
      exact ⟨trivial, rfl, trivial, rfl, trivial, rfl⟩
  obtain ⟨b1, b2, b3, b4, b5, b6⟩ := H1
  set r2 := if r1.1.aiEnabled = true ∧ f.detectorLoaded = true then
      (if AI_PROCESS_INTERVAL ≤ r1.1.aiFrameCounter + 1 then
        updateTracks cn { r1.1 with aiFrameCounter := 0 }
          ⟨f.detections, f.mask.width, f.mask.height⟩ now
      else ({ r1.1 with aiFrameCounter := r1.1.aiFrameCounter + 1 }, []))
    else (r1.1, []) with hR2
  have H2 : r2.1.lastMotionTime = r1.1.lastMotionTime ∧
      r2.1.lastRoiAlertTime = r1.1.lastRoiAlertTime ∧
      r2.1.lastTripwireAlertTime = r1.1.lastTripwireAlertTime ∧
      ∀ e ∈ r2.2, isMotionEv e = false ∧ isRoiEv e = false ∧
        isMaskTripEv e = false := by
    rw [hR2]
    split
    · split
      · obtain ⟨c1, c2, c3⟩ := updateTracks_clocks cn
          { r1.1 with aiFrameCounter := 0 }
          ⟨f.detections, f.mask.width, f.mask.height⟩ now
        exact ⟨c1, c2, c3, updateTracks_events_noCat cn _ _ now⟩
      · exact ⟨rfl, rfl, rfl, by simp⟩
    · exact ⟨rfl, rfl, rfl, by simp⟩
  obtain ⟨c1, c2, c3, cev⟩ := H2
  have hn1 : ∀ q ∈ stampNow now r2.2, isMotionEv q.2 = false :=
    fun q hq => (cev q.2 (stampNow_snd now r2.2 q hq).1).1
  have hn2 : ∀ q ∈ stampNow now r2.2, isRoiEv q.2 = false :=
    fun q hq => (cev q.2 (stampNow_snd now r2.2 q hq).1).2.1
  have hn3 : ∀ q ∈ stampNow now r2.2, isMaskTripEv q.2 = false :=
    fun q hq => (cev q.2 (stampNow_snd now r2.2 q hq).1).2.2
  refine ⟨?_, ?_, ?_, ?_, ?_, ?_⟩
  · rw [stampNow_append]
    exact debounceGt_append_of _ _ _ _ _ b1 (debounceGt_of_no_cat _ _ _ _ hn1)
  · rw [stampNow_append, lastCat_append,
      lastCat_of_no_cat isMotionEv (stampNow now r2.2)
        (lastCat isMotionEv s.lastMotionTime (stampNow now r1.2)) hn1,
      c1, b2]
  · rw [stampNow_append]
    exact debounceGt_append_of _ _ _ _ _ b3 (debounceGt_of_no_cat _ _ _ _ hn2)
  · rw [stampNow_append, lastCat_append,
      lastCat_of_no_cat isRoiEv (stampNow now r2.2)
        (lastCat isRoiEv s.lastRoiAlertTime (stampNow now r1.2)) hn2,
      c2, b4]
  · rw [stampNow_append]
    exact debounceGt_append_of _ _ _ _ _ b5 (debounceGt_of_no_cat _ _ _ _ hn3)
  · rw [stampNow_append, lastCat_append,
      lastCat_of_no_cat isMaskTripEv (stampNow now r2.2)
        (lastCat isMaskTripEv s.lastTripwireAlertTime (stampNow now r1.2)) hn3,
      c3, b6]

/-- Debounce of one event kind propagates from single frames to a whole run,
threading the clock. -/
lemma runFrames_debounce (cn : List String) (cat : Ev → Bool) (gap : Int)
    (clock : WorkerState → Int)
    (hstep : ∀ (s : WorkerState) (f : FrameIn) (now : Int),
      debounceGt cat gap (clock s) (stampNow now (captureFrame cn s f now).2) ∧
      clock (captureFrame cn s f now).1 =
        lastCat cat (clock s) (stampNow now (captureFrame cn s f now).2)) :
    ∀ (fs : List (Int × FrameIn)) (s : WorkerState),
      debounceGt cat gap (clock s) (runFrames cn s fs).2 ∧
      clock (runFrames cn s fs).1 =
        lastCat cat (clock s) (runFrames cn s fs).2 := by
  intro fs
  induction fs with
  | nil => intro s; exact ⟨trivial, rfl⟩
  | cons p rest ih =>
    intro s
    obtain ⟨now, f⟩ := p
    obtain ⟨hd, hl⟩ := hstep s f now
    obtain ⟨ihd, ihl⟩ := ih (captureFrame cn s f now).1
    unfold runFrames
    dsimp only
    constructor
    · refine debounceGt_append_of _ _ _ _ _ hd ?_
      rw [hl] at ihd
      exact ihd
    · have hms : List.map (fun e => (now, e)) (captureFrame cn s f now).2 =
          stampNow now (captureFrame cn s f now).2 := rfl
      rw [lastCat_append, hms, ← hl]
      exact ihl
/-- A chain anchored at a base point is a chain between consecutive members. -/
lemma chain_drop_base {α : Type} {R : α → α → Prop} {a : α} {l : List α}
    (h : List.Chain R a l) : List.Chain' R l := by
  cases h with
  | nil => trivial
  | cons hab h2 => exact h2

/-- Debounce yields a chain of gaps over the stamps of the selected events,
anchored at the initial stamp. -/
lemma debounceGt_chain (cat : Ev → Bool) (gap : Int) :
    ∀ (l : List (Int × Ev)) (last : Int), debounceGt cat gap last l →
      List.Chain (fun a b => gap < b - a) last
        ((l.filter (fun q => cat q.2)).map (fun q => q.1)) := by
  intro l
  induction l with
  | nil => intro last _; exact List.Chain.nil
  | cons q rest ih =>
    intro last h
    obtain ⟨t, e⟩ := q
    unfold debounceGt at h
    simp only [List.filter_cons]
    by_cases hc : cat e = true
    · rw [if_pos hc] at h
      rw [if_pos hc, List.map_cons]
      exact List.Chain.cons h.1 (ih t h.2)
    · rw [if_neg hc] at h
      rw [if_neg hc]
      exact ih last h

/-- Per-track debounce yields a chain of gaps over the stamps of the
track's tripwire events; with a recorded previous alert the chain is
anchored there. -/
lemma perTrackOk_chain (i : Int) :
    ∀ (l : List (Int × Ev)) (ctx : Option Int), perTrackOk i ctx l →
      List.Chain' (fun a b => TRIPWIRE_ALERT_DEBOUNCE_MS ≤ b - a)
        ((l.filter (fun q => decide (trackTripId q.2 = some i))).map
          (fun q => q.1)) ∧
      ∀ lt, ctx = some lt →
        List.Chain (fun a b => TRIPWIRE_ALERT_DEBOUNCE_MS ≤ b - a) lt
          ((l.filter (fun q => decide (trackTripId q.2 = some i))).map
            (fun q => q.1)) := by
  intro l
  induction l with
  | nil => exact fun ctx _ => ⟨trivial, fun lt _ => List.Chain.nil⟩
  | cons q rest ih =>
    intro ctx h
    obtain ⟨t, e⟩ := q
    unfold perTrackOk at h
    simp only [List.filter_cons]
    by_cases hc : trackTripId e = some i
    · rw [if_pos hc] at h
      rw [if_pos (decide_eq_true hc), List.map_cons]
      obtain ⟨hch, hfun⟩ := ih (some t) h.2
      constructor
      · exact hfun t rfl
      · intro lt hlt
        exact List.Chain.cons (h.1 lt hlt) (hfun t rfl)
    · rw [if_neg hc] at h
      rw [if_neg (by simp [hc])]
      exact ih ctx h

/-- A track found by id is a member of the list. -/
lemma findTrack_mem : ∀ (l : List TrackState) (i : Int) (t : TrackState),
    findTrack l i = some t → t ∈ l := by
  intro l
  induction l with
  | nil => intro i t h; simp [findTrack] at h
  | cons t0 ts ih =>
    intro i t h
    unfold findTrack at h
    split at h
    · rw [Option.some_inj] at h
      rw [← h]
      exact List.mem_cons_self t0 ts
    · exact List.mem_cons_of_mem t0 (ih i t h)

/-- The ROI/loitering step preserves a track's id, per-track tripwire
debounce stamp and last-seen stamp. -/
lemma roiLoiterStep_pres (hasRoi : Bool) (roi : List Point) (now : Int)
    (t : TrackState) :
    ((roiLoiterStep hasRoi roi now t).1).id = t.id ∧
    ((roiLoiterStep hasRoi roi now t).1).lastTripwireAlertMs =
      t.lastTripwireAlertMs ∧
    ((roiLoiterStep hasRoi roi now t).1).lastSeenMs = t.lastSeenMs := by
  unfold roiLoiterStep checkLoitering updateRoiStatus
  dsimp only
  repeat' split
  all_goals exact ⟨rfl, rfl, rfl⟩

/-- The line-crossing step preserves a track's id and last-seen stamp. -/
lemma checkLineCrossing_pres (tw1 tw2 : Point) (t : TrackState) (now : Int) :
    ((checkLineCrossing tw1 tw2 t now).1).id = t.id ∧
    ((checkLineCrossing tw1 tw2 t now).1).lastSeenMs = t.lastSeenMs := by
  rcases checkLineCrossing_cases tw1 tw2 t now with h | ⟨_, h, _⟩
  · rw [h]
    exact ⟨rfl, rfl⟩
  · rw [h]
    exact ⟨rfl, rfl⟩

/-- Every event of the line-crossing step carries the processed track's id. -/
lemma checkLineCrossing_own (tw1 tw2 : Point) (t : TrackState) (now : Int) :
    ∀ e ∈ (checkLineCrossing tw1 tw2 t now).2, trackTripId e = some t.id := by
  intro e he
  rcases checkLineCrossing_cases tw1 tw2 t now with h | ⟨_, _, dir, h⟩
  · rw [h] at he
    simp at he
  · rw [h] at he
    rw [List.mem_singleton] at he
    rw [he]
    rfl

/-- A pass whose step preserves id, tripwire stamp and last-seen stamp
preserves every track's two stamps as seen through lookup. -/
lemma runPass_find_pres (f : TrackState → TrackState × List Ev)
    (hf : ∀ t, ((f t).1).id = t.id)
    (hg : ∀ t, ((f t).1).lastTripwireAlertMs = t.lastTripwireAlertMs ∧
               ((f t).1).lastSeenMs = t.lastSeenMs) :
    ∀ (ids : List Int) (tr : List TrackState) (j : Int), ids.Nodup →
      (findTrack (runPass f tr ids).1 j).map
          (fun t => (t.lastTripwireAlertMs, t.lastSeenMs)) =
        (findTrack tr j).map (fun t => (t.lastTripwireAlertMs, t.lastSeenMs)) := by
  intro ids tr j hnd
  by_cases hj : j ∈ ids
  · rw [runPass_find_mem f hf ids tr j hnd hj, Option.map_map]
    cases findTrack tr j with
    | none => rfl
    | some t =>
      simp [Function.comp, (hg t).1, (hg t).2]
  · rw [runPass_find_not_mem f hf ids tr j hj]

/-- The ids of a filtered track list form a sublist of the original ids. -/
lemma trackIds_filter_sublist (p : TrackState → Bool) (l : List TrackState) :
    List.Sublist (trackIds (l.filter p)) (trackIds l) :=
  List.Sublist.map _ (List.filter_sublist l)

/-- Lookup in a filtered track list (ids unique): the track survives iff it
passes the predicate. -/
lemma findTrack_filter (p : TrackState → Bool) :
    ∀ (l : List TrackState) (i : Int), (trackIds l).Nodup →
      findTrack (l.filter p) i =
        match findTrack l i with
        | none => none
        | some t => if p t then some t else none := by
  intro l
  induction l with
  | nil => intro i _; rfl
  | cons t0 ts ih =>
    intro i hnd
    have hnd2 : (trackIds ts).Nodup ∧ t0.id ∉ trackIds ts := by
      unfold trackIds at hnd ⊢
      rw [List.map_cons, List.nodup_cons] at hnd
      exact ⟨hnd.2, hnd.1⟩
    rw [List.filter_cons]
    by_cases h0 : t0.id = i
    · have hfind : findTrack (t0 :: ts) i = some t0 := by
        rw [findTrack_cons, if_pos h0]
      rw [hfind]
      dsimp only
      by_cases hp : p t0 = true
      · rw [if_pos hp, if_pos hp, findTrack_cons, if_pos h0]
      · rw [if_neg hp, if_neg hp, ih i hnd2.1]
        have hnone : findTrack ts i = none := by
          rw [findTrack_none_iff, ← h0]
          exact hnd2.2
        rw [hnone]
    · have hfind : findTrack (t0 :: ts) i = findTrack ts i := by
        rw [findTrack_cons, if_neg h0]
      rw [hfind]
      by_cases hp : p t0 = true
      · rw [if_pos hp, findTrack_cons, if_neg h0]
        exact ih i hnd2.1
      · rw [if_neg hp]
        exact ih i hnd2.1

/-- A per-track debounce holding on the events for the id holds on the whole
list. -/
lemma perTrackOk_of_filter (i : Int) :
    ∀ (l : List (Int × Ev)) (ctx : Option Int),
      perTrackOk i ctx (l.filter (fun q => decide (trackTripId q.2 = some i))) →
      perTrackOk i ctx l := by
  intro l
  induction l with
  | nil => intro ctx _; trivial
  | cons q rest ih =>
    intro ctx h
    obtain ⟨t, e⟩ := q
    rw [List.filter_cons] at h
    unfold perTrackOk
    by_cases hc : trackTripId e = some i
    · rw [if_pos (decide_eq_true hc)] at h
      unfold perTrackOk at h
      rw [if_pos hc] at h ⊢
      exact ⟨h.1, ih (some t) h.2⟩
    · rw [if_neg (by simp [hc])] at h
      rw [if_neg hc]
      exact ih ctx h
/-- Per-track tripwire debounce across one `updateTracks` invocation: track
ids stay well-formed; the frame's stamped events respect the per-track
debounce against the track's recorded stamp; an emission for a track leaves
its recorded stamp at `now`; a silent invocation leaves the recorded stamp
unchanged (or the track was unknown, or it is evicted for good); and a dead
id stays dead and silent. -/
lemma updateTracks_perTrack (cn : List String) (s : WorkerState)
    (inp : TrackerIn) (now : Int) (i : Int) (hok : TrackIdsOk s) :
    TrackIdsOk (updateTracks cn s inp now).1 ∧
    s.nextTrackId ≤ (updateTracks cn s inp now).1.nextTrackId ∧
    perTrackOk i (ctxOf s i) (stampNow now (updateTracks cn s inp now).2) ∧
    ((∃ e ∈ (updateTracks cn s inp now).2, trackTripId e = some i) →
      ctxOf (updateTracks cn s inp now).1 i = some now) ∧
    ((∀ e ∈ (updateTracks cn s inp now).2, trackTripId e ≠ some i) →
      ctxOf (updateTracks cn s inp now).1 i = ctxOf s i ∨ ctxOf s i = none ∨
        isDead (updateTracks cn s inp now).1 i) ∧
    (isDead s i →
      (∀ e ∈ (updateTracks cn s inp now).2, trackTripId e ≠ some i) ∧
      isDead (updateTracks cn s inp now).1 i) := by
  obtain ⟨hnd, hbound, hnextle, hkeep, hnew, hupd, hdead, hund⟩ :=
    assignPhase_inv s now hok
      (buildTrackedDetections cn inp.frameWidth inp.frameHeight inp.detections)
  unfold updateTracks
  dsimp only
  set a := assignPhase now s
    (buildTrackedDetections cn inp.frameWidth inp.frameHeight inp.detections)
    with hA
  set p1 := runPass (roiLoiterStep s.hasRoi s.roiNorm now) a.tracks a.updated
    with hP1
  set p2 := if s.hasTripwire = true then
      runPass (fun t => checkLineCrossing s.tripwireStart s.tripwireEnd t now)
        p1.1 a.updated
    else (p1.1, []) with hP2
  set tracks4 := cleanupStaleTracks now p2.1 with hT4
  have hf1 : ∀ t, ((roiLoiterStep s.hasRoi s.roiNorm now t).1).id = t.id :=
    fun t => (roiLoiterStep_pres s.hasRoi s.roiNorm now t).1
  have hg1 : ∀ t, ((roiLoiterStep s.hasRoi s.roiNorm now t).1).lastTripwireAlertMs
        = t.lastTripwireAlertMs ∧
      ((roiLoiterStep s.hasRoi s.roiNorm now t).1).lastSeenMs = t.lastSeenMs :=
    fun t => ⟨(roiLoiterStep_pres _ _ _ t).2.1, (roiLoiterStep_pres _ _ _ t).2.2⟩
  have hf2 : ∀ t : TrackState,
      ((checkLineCrossing s.tripwireStart s.tripwireEnd t now).1).id = t.id :=
    fun t => (checkLineCrossing_pres _ _ t now).1
  have hids1 : trackIds p1.1 = trackIds a.tracks := by
    rw [hP1]
    exact runPass_ids _ hf1 a.updated a.tracks
  have hpres1 : ∀ j, (findTrack p1.1 j).map
        (fun t => (t.lastTripwireAlertMs, t.lastSeenMs)) =
      (findTrack a.tracks j).map
        (fun t => (t.lastTripwireAlertMs, t.lastSeenMs)) := by
    intro j
    rw [hP1]
    exact runPass_find_pres _ hf1 hg1 a.updated a.tracks j hund
  have hev1 : ∀ e ∈ p1.2, trackTripId e = none := by
    intro e he
    rw [hP1] at he
    obtain ⟨t, he2⟩ := runPass_events _ _ _ e he
    obtain ⟨dd, rfl⟩ := roiLoiterStep_events _ _ _ t e he2
    rfl
  have hids2 : trackIds p2.1 = trackIds p1.1 := by
    rw [hP2]
    by_cases htw : s.hasTripwire = true
    · rw [if_pos htw]
      exact runPass_ids _ hf2 a.updated p1.1
    · rw [if_neg htw]
  have h4 : tracks4 =
      p2.1.filter (fun t => !decide (TRACK_TIMEOUT_MS < now - t.lastSeenMs)) := by
    rw [hT4]
    rfl
  have hsubT : List.Sublist (trackIds tracks4) (trackIds a.tracks) := by
    have h := trackIds_filter_sublist
      (fun t => !decide (TRACK_TIMEOUT_MS < now - t.lastSeenMs)) p2.1
    rw [← h4] at h
    rw [hids2, hids1] at h
    exact h
  have hndT : (trackIds tracks4).Nodup := hnd.sublist hsubT
  have hmemT : ∀ j, j ∈ trackIds tracks4 → j ∈ trackIds a.tracks :=
    fun j hj => hsubT.subset hj
  have hboundT : ∀ t ∈ tracks4, t.id < a.nextId := by
    intro t ht
    have hj : t.id ∈ trackIds tracks4 := by
      unfold trackIds
      exact List.mem_map_of_mem _ ht
    have hj2 := hmemT _ hj
    unfold trackIds at hj2
    obtain ⟨t0, ht0, hid⟩ := List.mem_map.mp hj2
    rw [← hid]
    exact hbound t0 ht0
  have hndp2 : (trackIds p2.1).Nodup := by
    rw [hids2, hids1]
    exact hnd
  have htail : ∀ t0 t2 : TrackState, findTrack s.tracks i = some t0 →
      findTrack p2.1 i = some t2 →
      t2.lastTripwireAlertMs = t0.lastTripwireAlertMs →
      (ctxOf { s with tracks := tracks4, nextTrackId := a.nextId } i = ctxOf s i ∨
       ctxOf s i = none ∨
       isDead { s with tracks := tracks4, nextTrackId := a.nextId } i) := by
    intro t0 t2 hfs hfp2 hltm
    have hff := findTrack_filter
      (fun t => !decide (TRACK_TIMEOUT_MS < now - t.lastSeenMs)) p2.1 i hndp2
    rw [hfp2] at hff
    dsimp only at hff
    rw [← h4] at hff
    by_cases hsur : (!decide (TRACK_TIMEOUT_MS < now - t2.lastSeenMs)) = true
    · left
      rw [if_pos hsur] at hff
      unfold ctxOf
      dsimp only
      rw [hff, hfs]
      dsimp only [Option.map]
      rw [hltm]
    · right
      right
      rw [if_neg hsur] at hff
      have hmem := findTrack_mem s.tracks i t0 hfs
      have hid := findTrack_id s.tracks i t0 hfs
      have hb := hok.2 t0 hmem
      refine ⟨?_, ?_⟩
      · dsimp only
        rw [← findTrack_none_iff]
        exact hff
      · dsimp only
        omega
  by_cases htw : s.hasTripwire = true
  case neg =>
    rw [if_neg htw] at hP2
    have h21 : p2.1 = p1.1 := by rw [hP2]
    have h22 : p2.2 = [] := by rw [hP2]
    have hnoev : ∀ e ∈ p1.2 ++ p2.2, trackTripId e ≠ some i := by
      intro e he
      rw [h22, List.append_nil] at he
      rw [hev1 e he]
      simp
    refine ⟨⟨hndT, hboundT⟩, hnextle, ?_, ?_, ?_, ?_⟩
    · exact perTrackOk_no_id i _ _
        (fun q hq => hnoev q.2 (stampNow_snd now _ q hq).1)
    · rintro ⟨e, he, hei⟩
      exact absurd hei (hnoev e he)
    · intro hno
      cases hfs : findTrack s.tracks i with
      | none =>
        right
        left
        unfold ctxOf
        rw [hfs]
        rfl
      | some t0 =>
        obtain ⟨t1, hft1, hltm1⟩ := hkeep i t0 hfs
        have hp := hpres1 i
        rw [hft1] at hp
        cases hfp : findTrack p1.1 i with
        | none =>
          rw [hfp] at hp
          exact absurd hp (by simp)
        | some t2 =>
          rw [hfp] at hp
          dsimp only [Option.map] at hp
          have hpair := Option.some_inj.mp hp
          have hltm2 : t2.lastTripwireAlertMs = t1.lastTripwireAlertMs :=
            congrArg Prod.fst hpair
          have hfp2 : findTrack p2.1 i = some t2 := by
            rw [h21]
            exact hfp
          exact htail t0 t2 hfs hfp2 (hltm2.trans hltm1)
    · intro hdd
      obtain ⟨hdni, hdlt⟩ := hdd
      refine ⟨hnoev, ?_, ?_⟩
      · dsimp only
        intro hmem
        exact (hdead i hdni hdlt).1 (hmemT i hmem)
      · dsimp only
        omega
  case pos =>
    rw [if_pos htw] at hP2
    have hown2 : ∀ (t : TrackState) e,
        e ∈ (checkLineCrossing s.tripwireStart s.tripwireEnd t now).2 →
        trackTripId e = some t.id :=
      fun t => checkLineCrossing_own _ _ t now
    have hfilt : p2.2.filter (fun e => decide (trackTripId e = some i)) =
        (if i ∈ a.updated then
          match findTrack p1.1 i with
          | some t => (checkLineCrossing s.tripwireStart s.tripwireEnd t now).2
          | none => []
        else []) := by
      rw [hP2]
      exact runPass_events_filter _ hf2 hown2 a.updated p1.1 i hund
    have hno1 : ∀ q ∈ stampNow now p1.2, trackTripId q.2 ≠ some i := by
      intro q hq
      rw [hev1 q.2 (stampNow_snd now p1.2 q hq).1]
      simp
    refine ⟨⟨hndT, hboundT⟩, hnextle, ?_, ?_, ?_, ?_⟩
    · rw [stampNow_append]
      refine perTrackOk_append_of i _ _ _ (perTrackOk_no_id i _ _ hno1) ?_
      rw [ptLast_no_id i _ _ hno1]
      refine perTrackOk_of_filter i _ _ ?_
      rw [stampNow_filter now (fun e => decide (trackTripId e = some i)) p2.2,
        hfilt]
      by_cases hiu : i ∈ a.updated
      · rw [if_pos hiu]
        cases hfp : findTrack p1.1 i with
        | none => exact trivial
        | some t2 =>
          show perTrackOk i (ctxOf s i)
            (stampNow now (checkLineCrossing s.tripwireStart s.tripwireEnd t2 now).2)
          rcases checkLineCrossing_cases s.tripwireStart s.tripwireEnd t2 now with
            hcc | ⟨hgap, hst, dir, hev⟩
          · rw [hcc]
            exact trivial
          · rw [hev]
            have hid2 : t2.id = i := findTrack_id p1.1 i t2 hfp
            show perTrackOk i (ctxOf s i)
              [(now, Ev.trackTripwire t2.id t2.label dir)]
            unfold perTrackOk
            rw [if_pos (show trackTripId (Ev.trackTripwire t2.id t2.label dir)
              = some i by rw [show trackTripId (Ev.trackTripwire t2.id t2.label dir)
                = some t2.id from rfl, hid2])]
            refine ⟨?_, trivial⟩
            intro lt hlt
            unfold ctxOf at hlt
            cases hfs : findTrack s.tracks i with
            | none =>
              rw [hfs] at hlt
              exact absurd hlt (by simp)
            | some t0 =>
              rw [hfs] at hlt
              dsimp only [Option.map] at hlt
              have hlt2 := Option.some_inj.mp hlt
              obtain ⟨t1, hft1, hltm1⟩ := hkeep i t0 hfs
              have hp := hpres1 i
              rw [hft1, hfp] at hp
              dsimp only [Option.map] at hp
              have hpair := Option.some_inj.mp hp
              have hltm2 : t2.lastTripwireAlertMs = t1.lastTripwireAlertMs :=
                congrArg Prod.fst hpair
              rw [hltm2, hltm1, hlt2] at hgap
              exact hgap
      · rw [if_neg hiu]
        exact trivial
    · rintro ⟨e, he, hei⟩
      rcases List.mem_append.mp he with he | he
      · rw [hev1 e he] at hei
        exact Option.noConfusion hei
      · have hef : e ∈ p2.2.filter (fun e => decide (trackTripId e = some i)) :=
          List.mem_filter.mpr ⟨he, decide_eq_true hei⟩
        rw [hfilt] at hef
        by_cases hiu : i ∈ a.updated
        · rw [if_pos hiu] at hef
          cases hfp : findTrack p1.1 i with
          | none =>
            rw [hfp] at hef
            have hef2 : e ∈ ([] : List Ev) := hef
            simp at hef2
          | some t2 =>
            rw [hfp] at hef
            have hef2 : e ∈ (checkLineCrossing s.tripwireStart s.tripwireEnd t2 now).2 :=
              hef
            rcases checkLineCrossing_cases s.tripwireStart s.tripwireEnd t2 now with
              hcc | ⟨hgap, hst, dir, hev⟩
            · rw [hcc] at hef2
              simp at hef2
            · have hfp2 : findTrack p2.1 i =
                  some ((checkLineCrossing s.tripwireStart s.tripwireEnd t2 now).1) := by
                rw [hP2,
                  runPass_find_mem _ hf2 a.updated p1.1 i hund hiu, hfp]
                rfl
              obtain ⟨ta, hfta, hlsa⟩ := hupd i hiu
              have hp := hpres1 i
              rw [hfta, hfp] at hp
              dsimp only [Option.map] at hp
              have hpair := Option.some_inj.mp hp
              have hlsm2 : t2.lastSeenMs = ta.lastSeenMs :=
                congrArg Prod.snd hpair
              have hlsm3 : ((checkLineCrossing s.tripwireStart s.tripwireEnd t2 now).1).lastSeenMs
                  = t2.lastSeenMs := (checkLineCrossing_pres _ _ t2 now).2
              have hsur : (!decide (TRACK_TIMEOUT_MS <
                  now - ((checkLineCrossing s.tripwireStart s.tripwireEnd t2 now).1).lastSeenMs))
                  = true := by
                rw [hlsm3, hlsm2, hlsa]
                simp [TRACK_TIMEOUT_MS]
              have hff := findTrack_filter
                (fun t => !decide (TRACK_TIMEOUT_MS < now - t.lastSeenMs)) p2.1 i hndp2
              rw [hfp2] at hff
              dsimp only at hff
              rw [if_pos hsur] at hff
              rw [← h4] at hff
              unfold ctxOf
              dsimp only
              rw [hff]
              dsimp only [Option.map]
              rw [hst]
        · rw [if_neg hiu] at hef
          simp at hef
    · intro hno
      cases hfs : findTrack s.tracks i with
      | none =>
        right
        left
        unfold ctxOf
        rw [hfs]
        rfl
      | some t0 =>
        obtain ⟨t1, hft1, hltm1⟩ := hkeep i t0 hfs
        have hp := hpres1 i
        rw [hft1] at hp
        cases hfp : findTrack p1.1 i with
        | none =>
          rw [hfp] at hp
          exact absurd hp (by simp)
        | some t2 =>
          rw [hfp] at hp
          dsimp only [Option.map] at hp
          have hpair := Option.some_inj.mp hp
          have hltm2 : t2.lastTripwireAlertMs = t1.lastTripwireAlertMs :=
            congrArg Prod.fst hpair
          have hfp2 : findTrack p2.1 i = some t2 := by
            rw [hP2]
            by_cases hiu : i ∈ a.updated
            · rw [runPass_find_mem _ hf2 a.updated p1.1 i hund hiu, hfp]
              rcases checkLineCrossing_cases s.tripwireStart s.tripwireEnd t2 now with
                hcc | ⟨hgap, hst, dir, hev⟩
              · dsimp only [Option.map]
                rw [hcc]
              · exfalso
                have hevin : Ev.trackTripwire t2.id t2.label dir ∈ p2.2 := by
                  have hin : Ev.trackTripwire t2.id t2.label dir ∈
                      p2.2.filter (fun e => decide (trackTripId e = some i)) := by
                    rw [hfilt, if_pos hiu]
                    show Ev.trackTripwire t2.id t2.label dir ∈
                      (match findTrack p1.1 i with
                        | some t => (checkLineCrossing s.tripwireStart s.tripwireEnd t now).2
                        | none => [])
                    rw [hfp]
                    show Ev.trackTripwire t2.id t2.label dir ∈
                      (checkLineCrossing s.tripwireStart s.tripwireEnd t2 now).2
                    rw [hev]
                    exact List.mem_singleton.mpr rfl
                  exact List.mem_of_mem_filter hin
                refine hno _ (List.mem_append.mpr (Or.inr hevin)) ?_
                show some t2.id = some i
                rw [findTrack_id p1.1 i t2 hfp]
            · rw [runPass_find_not_mem _ hf2 a.updated p1.1 i hiu]
              exact hfp
          exact htail t0 t2 hfs hfp2 (hltm2.trans hltm1)
    · intro hdd
      obtain ⟨hdni, hdlt⟩ := hdd
      obtain ⟨hnotA, hnotU⟩ := hdead i hdni hdlt
      have hnoe : ∀ e ∈ p1.2 ++ p2.2, trackTripId e ≠ some i := by
        intro e he hei
        rcases List.mem_append.mp he with he | he
        · rw [hev1 e he] at hei
          exact Option.noConfusion hei
        · have hef : e ∈ p2.2.filter (fun e => decide (trackTripId e = some i)) :=
            List.mem_filter.mpr ⟨he, decide_eq_true hei⟩
          rw [hfilt, if_neg hnotU] at hef
          simp at hef
      refine ⟨hnoe, ?_, ?_⟩
      · dsimp only
        intro hmem
        exact hnotA (hmemT i hmem)
      · dsimp only
        omega
/-- Per-track tripwire debounce across one captured frame; the motion path
contributes no per-track events, so the facts of `updateTracks_perTrack`
lift to the whole frame. -/
lemma captureFrame_perTrack (cn : List String) (s : WorkerState) (f : FrameIn)
    (now : Int) (i : Int) (hok : TrackIdsOk s) :
    TrackIdsOk (captureFrame cn s f now).1 ∧
    perTrackOk i (ctxOf s i) (stampNow now (captureFrame cn s f now).2) ∧
    ((∃ e ∈ (captureFrame cn s f now).2, trackTripId e = some i) →
      ctxOf (captureFrame cn s f now).1 i = some now) ∧
    ((∀ e ∈ (captureFrame cn s f now).2, trackTripId e ≠ some i) →
      ctxOf (captureFrame cn s f now).1 i = ctxOf s i ∨ ctxOf s i = none ∨
        isDead (captureFrame cn s f now).1 i) ∧
    (isDead s i →
      (∀ e ∈ (captureFrame cn s f now).2, trackTripId e ≠ some i) ∧
      isDead (captureFrame cn s f now).1 i) := by
  unfold captureFrame
  dsimp only
  set r1 := if s.motionEnabled = true then processMotionDetection s f.mask now
    else (s, []) with hR1
  have H1 : r1.1.tracks = s.tracks ∧ r1.1.nextTrackId = s.nextTrackId ∧
      ∀ e ∈ r1.2, trackTripId e = none := by
    rw [hR1]
    by_cases hme : s.motionEnabled = true
    · rw [if_pos hme]
      obtain ⟨_, _, _, _, _, _, h7, h8, h9⟩ :=
        processMotionDetection_step s f.mask now
      exact ⟨h7, h8, h9⟩
    · rw [if_neg hme]
      exact ⟨rfl, rfl, by simp⟩
  obtain ⟨htr1, hnx1, hev1⟩ := H1
  have hokW : ∀ w : WorkerState, w.tracks = s.tracks →
      w.nextTrackId = s.nextTrackId → TrackIdsOk w := by
    intro w h1 h2
    refine ⟨?_, ?_⟩
    · rw [h1]
      exact hok.1
    · intro t ht
      rw [h1] at ht
      rw [h2]
      exact hok.2 t ht
  have hctxW : ∀ w : WorkerState, w.tracks = s.tracks →
      ctxOf w i = ctxOf s i := by
    intro w h1
    unfold ctxOf
    rw [h1]
  have hdeadW : ∀ w : WorkerState, w.tracks = s.tracks →
      w.nextTrackId = s.nextTrackId → isDead s i → isDead w i := by
    intro w h1 h2 hd
    exact ⟨by rw [h1]; exact hd.1, by rw [h2]; exact hd.2⟩
  set r2 := if r1.1.aiEnabled = true ∧ f.detectorLoaded = true then
      (if AI_PROCESS_INTERVAL ≤ r1.1.aiFrameCounter + 1 then
        updateTracks cn { r1.1 with aiFrameCounter := 0 }
          ⟨f.detections, f.mask.width, f.mask.height⟩ now
      else ({ r1.1 with aiFrameCounter := r1.1.aiFrameCounter + 1 }, []))
    else (r1.1, []) with hR2
  have MAIN : TrackIdsOk r2.1 ∧
      perTrackOk i (ctxOf s i) (stampNow now r2.2) ∧
      ((∃ e ∈ r2.2, trackTripId e = some i) → ctxOf r2.1 i = some now) ∧
      ((∀ e ∈ r2.2, trackTripId e ≠ some i) →
        ctxOf r2.1 i = ctxOf s i ∨ ctxOf s i = none ∨ isDead r2.1 i) ∧
      (isDead s i → (∀ e ∈ r2.2, trackTripId e ≠ some i) ∧ isDead r2.1 i) := by
    rw [hR2]
    split
    · split
      · have hok1 : TrackIdsOk { r1.1 with aiFrameCounter := 0 } :=
          hokW _ htr1 hnx1
        have hctx1 : ctxOf { r1.1 with aiFrameCounter := 0 } i = ctxOf s i :=
          hctxW _ htr1
        obtain ⟨u1, u2, u3, u4, u5, u6⟩ := updateTracks_perTrack cn
          { r1.1 with aiFrameCounter := 0 }
          ⟨f.detections, f.mask.width, f.mask.height⟩ now i hok1
        rw [hctx1] at u3 u5
        refine ⟨u1, u3, u4, u5, ?_⟩
        intro hd
        exact u6 (hdeadW _ htr1 hnx1 hd)
      · refine ⟨hokW _ htr1 hnx1, trivial, ?_, ?_, ?_⟩
        · rintro ⟨e, he, hei⟩
          exact absurd he (List.not_mem_nil e)
        · intro hno
          left
          exact hctxW _ htr1
        · intro hd
          exact ⟨fun e he => absurd he (List.not_mem_nil e),
            hdeadW _ htr1 hnx1 hd⟩
    · refine ⟨hokW _ htr1 hnx1, trivial, ?_, ?_, ?_⟩
      · rintro ⟨e, he, hei⟩
        exact absurd he (List.not_mem_nil e)
      · intro hno
        left
        exact hctxW _ htr1
      · intro hd
        exact ⟨fun e he => absurd he (List.not_mem_nil e),
          hdeadW _ htr1 hnx1 hd⟩
  obtain ⟨m1, m2, m3, m4, m5⟩ := MAIN
  have hno1 : ∀ q ∈ stampNow now r1.2, trackTripId q.2 ≠ some i := by
    intro q hq
    rw [hev1 q.2 (stampNow_snd now r1.2 q hq).1]
    simp
  refine ⟨m1, ?_, ?_, ?_, ?_⟩
  · rw [stampNow_append]
    refine perTrackOk_append_of i _ _ _ (perTrackOk_no_id i _ _ hno1) ?_
    rw [ptLast_no_id i _ _ hno1]
    exact m2
  · rintro ⟨e, he, hei⟩
    rcases List.mem_append.mp he with he | he
    · rw [hev1 e he] at hei
      exact Option.noConfusion hei
    · exact m3 ⟨e, he, hei⟩
  · intro hno
    refine m4 ?_
    intro e he
    exact hno e (List.mem_append.mpr (Or.inr he))
  · intro hd
    obtain ⟨hne, hd2⟩ := m5 hd
    refine ⟨?_, hd2⟩
    intro e he
    rcases List.mem_append.mp he with he | he
    · intro hei
      rw [hev1 e he] at hei
      exact Option.noConfusion hei
    · exact hne e he
/-- Per-track tripwire debounce over a whole run of frames: starting from a
well-formed worker state, the stamped event stream respects the per-track
debounce against the initial recorded stamp, well-formedness is preserved,
and dead ids never produce events again. -/
lemma runFrames_perTrack (cn : List String) (i : Int) :
    ∀ (fs : List (Int × FrameIn)) (s : WorkerState), TrackIdsOk s →
      TrackIdsOk (runFrames cn s fs).1 ∧
      perTrackOk i (ctxOf s i) (runFrames cn s fs).2 ∧
      (isDead s i →
        (∀ q ∈ (runFrames cn s fs).2, trackTripId q.2 ≠ some i) ∧
        isDead (runFrames cn s fs).1 i) := by
  intro fs
  induction fs with
  | nil => exact fun s hok => ⟨hok, trivial, fun hd => ⟨fun q hq => absurd hq
      (List.not_mem_nil q), hd⟩⟩
  | cons p rest ih =>
    intro s hok
    obtain ⟨now, f⟩ := p
    obtain ⟨hok2, hpt, hemit, hsilent, hdead⟩ :=
      captureFrame_perTrack cn s f now i hok
    obtain ⟨ihok, ihpt, ihdead⟩ := ih (captureFrame cn s f now).1 hok2
    unfold runFrames
    dsimp only
    have hms : List.map (fun e => (now, e)) (captureFrame cn s f now).2 =
        stampNow now (captureFrame cn s f now).2 := rfl
    rw [hms]
    refine ⟨ihok, ?_, ?_⟩
    · refine perTrackOk_append_of i _ _ _ hpt ?_
      by_cases hE : ∀ e ∈ (captureFrame cn s f now).2, trackTripId e ≠ some i
      · have hplast : ptLast i (ctxOf s i)
            (stampNow now (captureFrame cn s f now).2) = ctxOf s i :=
          ptLast_no_id i _ _ (fun q hq =>
            hE q.2 (stampNow_snd now _ q hq).1)
        rw [hplast]
        rcases hsilent hE with hc | hc | hc
        · rw [← hc]
          exact ihpt
        · rw [hc]
          exact perTrackOk_weaken i _ _ ihpt
        · exact perTrackOk_no_id i _ _ (fun q hq => (ihdead hc).1 q hq)
      · push_neg at hE
        obtain ⟨e, he, hei⟩ := hE
        rw [ptLast_stampNow i now _ _ e he hei, ← hemit ⟨e, he, hei⟩]
        exact ihpt
    · intro hd
      obtain ⟨hne, hd2⟩ := hdead hd
      obtain ⟨hne2, hd3⟩ := ihdead hd2
      refine ⟨?_, hd3⟩
      intro q hq
      rcases List.mem_append.mp hq with hq | hq
      · exact hne q.2 (stampNow_snd now _ q hq).1
      · exact hne2 q hq
/-- CLAIM C3. For every pipeline run (any class-name table, any well-formed
starting worker state, any sequence of timestamped frames): consecutive
emitted whole-frame motion events are at least 2000 ms apart; consecutive
ROI-motion events at least 3000 ms apart; consecutive mask-centroid tripwire
events at least 2000 ms apart; and consecutive per-track tripwire events for
the same track id at least 2000 ms apart. Consecutive means adjacent in the
subsequence of events of that kind of the run's stamped event stream. -/
theorem claim_C3 (cn : List String) (s0 : WorkerState)
    (fs : List (Int × FrameIn)) (hok : TrackIdsOk s0) :
    List.Chain' (fun a b => 2000 ≤ b - a)
      (((runFrames cn s0 fs).2.filter (fun q => isMotionEv q.2)).map
        (fun q => q.1)) ∧
    List.Chain' (fun a b => 3000 ≤ b - a)
      (((runFrames cn s0 fs).2.filter (fun q => isRoiEv q.2)).map
        (fun q => q.1)) ∧
    List.Chain' (fun a b => 2000 ≤ b - a)
      (((runFrames cn s0 fs).2.filter (fun q => isMaskTripEv q.2)).map
        (fun q => q.1)) ∧
    ∀ i : Int, List.Chain' (fun a b => 2000 ≤ b - a)
      (((runFrames cn s0 fs).2.filter
        (fun q => decide (trackTripId q.2 = some i))).map (fun q => q.1)) := by
  refine ⟨?_, ?_, ?_, ?_⟩
  · have h := (runFrames_debounce cn isMotionEv 2000 (fun w => w.lastMotionTime)
      (fun s f now => ⟨(captureFrame_clocks_step cn s f now).1,
        (captureFrame_clocks_step cn s f now).2.1⟩) fs s0).1
    have hc := debounceGt_chain isMotionEv 2000 _ _ h
    exact (chain_drop_base hc).imp (fun x y hab => le_of_lt hab)
  · have h := (runFrames_debounce cn isRoiEv 3000 (fun w => w.lastRoiAlertTime)
      (fun s f now => ⟨(captureFrame_clocks_step cn s f now).2.2.1,
        (captureFrame_clocks_step cn s f now).2.2.2.1⟩) fs s0).1
    have hc := debounceGt_chain isRoiEv 3000 _ _ h
    exact (chain_drop_base hc).imp (fun x y hab => le_of_lt hab)
  · have h := (runFrames_debounce cn isMaskTripEv 2000
      (fun w => w.lastTripwireAlertTime)
      (fun s f now => ⟨(captureFrame_clocks_step cn s f now).2.2.2.2.1,
        (captureFrame_clocks_step cn s f now).2.2.2.2.2⟩) fs s0).1
    have hc := debounceGt_chain isMaskTripEv 2000 _ _ h
    exact (chain_drop_base hc).imp (fun x y hab => le_of_lt hab)
  · intro i
    have h := (runFrames_perTrack cn i fs s0 hok).2.1
    exact (perTrackOk_chain i _ _ h).1

/-- Witness for C3 at the example worker (no tracks, id counter 1) over the
empty frame list, with the per-track clause instantiated at track id 1. -/
theorem claim_C3_witness :
    TrackIdsOk exWorker ∧
    List.Chain' (fun a b => 2000 ≤ b - a)
      (((runFrames exClassNames exWorker []).2.filter
        (fun q => isMotionEv q.2)).map (fun q => q.1)) ∧
    List.Chain' (fun a b => 2000 ≤ b - a)
      (((runFrames exClassNames exWorker []).2.filter
        (fun q => decide (trackTripId q.2 = some 1))).map (fun q => q.1)) :=
  ⟨⟨by simp [trackIds, exWorker], by simp [exWorker]⟩,
    (claim_C3 exClassNames exWorker []
      ⟨by simp [trackIds, exWorker], by simp [exWorker]⟩).1,
    (claim_C3 exClassNames exWorker []
      ⟨by simp [trackIds, exWorker], by simp [exWorker]⟩).2.2.2 1⟩
